import Mathlib

/-!
Verification of the fgt_nvme-robustness run engine.

This file gives a shallow embedding of the core of the repository
(`src/model.rs`, `src/scheduler.rs`, `src/runner.rs`, `src/logging.rs`,
`src/seed.rs`) and proves the frozen claims about it.  Machine integers
(u32/u64) are embedded as `Nat` with explicit `% 2^w` at the wrapping
operations; `HashMap`s are embedded as association lists (keys are unique
because command ids and fence ids are allocated by incrementing counters),
and the source's `get_pending_canonical` sorts the keys exactly as the
Rust code sorts the hash-map keys.  The event log is embedded as a list of
structured events together with a rendering function that produces the
exact textual lines the Rust logger formats.
-/

namespace Nvme

/-- 2^64, the modulus for wrapping u64 arithmetic. -/
def U64 : Nat := 18446744073709551616

/-- 2^32, the modulus for wrapping u32 arithmetic. -/
def U32 : Nat := 4294967296

/-- `STORAGE_SIZE` from `model.rs`: device storage length in u32 words. -/
def STORAGE_SIZE : Nat := 1024

/-- `Command` from `seed.rs`: the tagged workload command variant. -/
inductive Command where
  | WRITE (lba : Nat) (len : Nat) (pattern : Nat)
  | READ (lba : Nat) (len : Nat)
  | FENCE
  | WRITE_VISIBLE (lba : Nat) (len : Nat)
deriving DecidableEq

/-- `Command::type_name` from `seed.rs`. -/
def Command.type_name : Command → String
  | .WRITE _ _ _ => "WRITE"
  | .READ _ _ => "READ"
  | .FENCE => "FENCE"
  | .WRITE_VISIBLE _ _ => "WRITE_VISIBLE"

/-- `Seed` from `seed.rs`. -/
structure Seed where
  seed_id : String
  commands : List Command
deriving DecidableEq

/-- `Status` from `model.rs`. -/
inductive Status where
  | OK
  | ERR
  | TIMEOUT
deriving DecidableEq

/-- `Display for Status` from `model.rs`. -/
def Status.render : Status → String
  | .OK => "OK"
  | .ERR => "ERR"
  | .TIMEOUT => "TIMEOUT"

/-- `PendingCommand` from `model.rs`. -/
structure PendingCommand where
  cmd_id : Nat
  command : Command
  fence_id : Option Nat
deriving DecidableEq

/-- `CommandResult` from `model.rs`. -/
structure CommandResult where
  cmd_id : Nat
  status : Status
  output : Nat
deriving DecidableEq

/-- `NvmeLiteModel` from `model.rs`.  The two storages are total maps on
word indices (reads outside `STORAGE_SIZE` never happen because of the
bounds checks); `pending` and `fence_tracking` are `HashMap`s in the
source and are embedded as association lists with unique keys. -/
structure NvmeLiteModel where
  host_storage : Nat → Nat
  dev_storage : Nat → Nat
  submitted : List PendingCommand
  pending : List (Nat × Nat)
  completed : List CommandResult
  next_cmd_id : Nat
  current_fence_id : Nat
  fence_tracking : List (Nat × (Nat × Nat))
  pending_peak : Nat
  phase_tag : Bool
  had_reset : Bool
  commands_lost_to_reset : Nat

/-- `NvmeLiteModel::new` from `model.rs`. -/
def NvmeLiteModel.new : NvmeLiteModel where
  host_storage := fun _ => 0
  dev_storage := fun _ => 0
  submitted := []
  pending := []
  completed := []
  next_cmd_id := 0
  current_fence_id := 0
  fence_tracking := []
  pending_peak := 0
  phase_tag := true
  had_reset := false
  commands_lost_to_reset := 0

/-- Association-list lookup, the embedding of `HashMap::get`/`remove`'s
found value. -/
def lookupIdx : List (Nat × Nat) → Nat → Option Nat
  | [], _ => none
  | p :: rest, k => if p.1 = k then some p.2 else lookupIdx rest k

/-- Association-list key removal, the embedding of `HashMap::remove`'s
effect on the map (keys are unique). -/
def removeKey (l : List (Nat × Nat)) (k : Nat) : List (Nat × Nat) :=
  l.filter (fun p => decide (p.1 ≠ k))

/-- The keys of the pending map, in insertion order. -/
def pendingKeys (m : NvmeLiteModel) : List Nat :=
  m.pending.map Prod.fst

/-- Insertion into a sorted list of naturals (ascending). -/
def insertSorted (x : Nat) : List Nat → List Nat
  | [] => [x]
  | y :: ys => if x ≤ y then x :: y :: ys else y :: insertSorted x ys

/-- Ascending insertion sort, the embedding of `Vec::sort` on the
collected hash-map keys in `get_pending_canonical`. -/
def sortNat (l : List Nat) : List Nat :=
  l.foldr insertSorted []

/-- `NvmeLiteModel::submit` from `model.rs`.  Returns
`(cmd_id, is_fence, fence_id_if_fence)` with the updated model. -/
def NvmeLiteModel.submit (m : NvmeLiteModel) (command : Command) :
    (Nat × Bool × Option Nat) × NvmeLiteModel :=
  let cmd_id := m.next_cmd_id
  let is_fence : Bool := match command with | Command.FENCE => true | _ => false
  let (fence_id, m1) :=
    if is_fence then
      let fid := m.current_fence_id
      (some fid,
        { m with
          current_fence_id := fid + 1
          fence_tracking := m.fence_tracking ++ [(fid, (cmd_id, 0))] })
    else (none, m)
  let pending_cmd : PendingCommand := ⟨cmd_id, command, fence_id⟩
  let idx := m1.submitted.length
  let m2 := { m1 with
    next_cmd_id := cmd_id + 1
    submitted := m1.submitted ++ [pending_cmd]
    pending := m1.pending ++ [(cmd_id, idx)] }
  let current_pending := m2.pending.length
  let m3 := if current_pending > m2.pending_peak
    then { m2 with pending_peak := current_pending } else m2
  ((cmd_id, is_fence, fence_id), m3)

/-- `NvmeLiteModel::get_pending_canonical` from `model.rs`: pending
command ids sorted ascending. -/
def NvmeLiteModel.get_pending_canonical (m : NvmeLiteModel) : List Nat :=
  sortNat (pendingKeys m)

/-- `NvmeLiteModel::execute_command` from `model.rs`. -/
def NvmeLiteModel.execute_command (m : NvmeLiteModel) (c : Command) :
    (Status × Nat) × NvmeLiteModel :=
  match c with
  | .WRITE lba len pattern =>
    if lba + len > STORAGE_SIZE then ((Status.ERR, 0), m)
    else ((Status.OK, 0),
      { m with host_storage := fun i =>
          if lba ≤ i ∧ i < lba + len then pattern else m.host_storage i })
  | .READ lba len =>
    if lba + len > STORAGE_SIZE then ((Status.ERR, 0), m)
    else
      let hash := (List.range len).foldl
        (fun h i => (h * 31 + m.dev_storage (lba + i)) % U32) 0
      ((Status.OK, hash), m)
  | .FENCE => ((Status.OK, 0), m)
  | .WRITE_VISIBLE lba len =>
    if lba + len > STORAGE_SIZE then ((Status.ERR, 0), m)
    else ((Status.OK, 0),
      { m with dev_storage := fun i =>
          if lba ≤ i ∧ i < lba + len then m.host_storage i else m.dev_storage i })

/-- `NvmeLiteModel::complete` from `model.rs`.  Returns `none` and leaves
the model untouched when `cmd_id` is not pending. -/
def NvmeLiteModel.complete (m : NvmeLiteModel) (cmd_id : Nat)
    (force_status : Option Status) : Option CommandResult × NvmeLiteModel :=
  match lookupIdx m.pending cmd_id with
  | none => (none, m)
  | some idx =>
    let m1 := { m with pending := removeKey m.pending cmd_id }
    let command := (m1.submitted.getD idx ⟨0, Command.FENCE, none⟩).command
    let (so, m2) :=
      match force_status with
      | some forced => ((forced, 0), m1)
      | none => m1.execute_command command
    let result : CommandResult := ⟨cmd_id, so.1, so.2⟩
    let ft := m2.fence_tracking.map
      (fun e => if cmd_id < e.2.1 then (e.1, (e.2.1, e.2.2 + 1)) else e)
    (some result,
      { m2 with fence_tracking := ft, completed := m2.completed ++ [result] })

/-- `NvmeLiteModel::reset` from `model.rs`: clears pending, records the
loss, returns how many commands were pending. -/
def NvmeLiteModel.reset (m : NvmeLiteModel) : Nat × NvmeLiteModel :=
  let pending_before := m.pending.length
  (pending_before,
    { m with
      commands_lost_to_reset := pending_before
      pending := []
      had_reset := true })

/-- `SplitMix64` from `scheduler.rs`: a single u64 of state. -/
structure SplitMix64 where
  state : Nat
deriving DecidableEq

/-- `SplitMix64::seed_from_u64` from `scheduler.rs`. -/
def SplitMix64.seed_from_u64 (seed : Nat) : SplitMix64 := ⟨seed⟩

/-- `SplitMix64::next_u64` from `scheduler.rs`: the splitmix64 step, all
arithmetic wrapping on 64 bits. -/
def SplitMix64.next_u64 (g : SplitMix64) : Nat × SplitMix64 :=
  let s := (g.state + 0x9E3779B97F4A7C15) % U64
  let z1 := ((s ^^^ (s >>> 30)) * 0xBF58476D1CE4E5B9) % U64
  let z2 := ((z1 ^^^ (z1 >>> 27)) * 0x94D049BB133111EB) % U64
  (z2 ^^^ (z2 >>> 31), ⟨s⟩)

/-- `SplitMix64::next_bit` from `scheduler.rs`. -/
def SplitMix64.next_bit (g : SplitMix64) : Nat × SplitMix64 :=
  let (r, g1) := g.next_u64
  (r &&& 1, g1)

/-- `SplitMix64::gen_index` from `scheduler.rs`: `u64 % len`. -/
def SplitMix64.gen_index (g : SplitMix64) (len : Nat) : Nat × SplitMix64 :=
  let (r, g1) := g.next_u64
  (r % len, g1)

/-- `Policy` from `scheduler.rs`. -/
inductive Policy where
  | FIFO
  | RANDOM
  | ADVERSARIAL
  | BATCHED
deriving DecidableEq

/-- `Display for Policy` from `scheduler.rs`. -/
def Policy.render : Policy → String
  | .FIFO => "FIFO"
  | .RANDOM => "RANDOM"
  | .ADVERSARIAL => "ADVERSARIAL"
  | .BATCHED => "BATCHED"

/-- `BoundK` from `scheduler.rs`. -/
inductive BoundK where
  | Finite (k : Nat)
  | Infinite
deriving DecidableEq

/-- `Display for BoundK` from `scheduler.rs`. -/
def BoundK.render : BoundK → String
  | .Finite k => Nat.repr k
  | .Infinite => "inf"

/-- `Decision` from `scheduler.rs`. -/
structure Decision where
  pick_index : Nat
  cmd_id : Nat
deriving DecidableEq

/-- `Scheduler` from `scheduler.rs` (the dead `batch_size`/`batch_buffer`
fields are omitted; they are never read by the core). -/
structure Scheduler where
  policy : Policy
  bound_k : BoundK
  rng : SplitMix64
  decisions : List Decision

/-- `Scheduler::new` from `scheduler.rs`. -/
def Scheduler.new (policy : Policy) (bound_k : BoundK) (schedule_seed : Nat) :
    Scheduler :=
  ⟨policy, bound_k, SplitMix64.seed_from_u64 schedule_seed, []⟩

/-- `Scheduler::next_bit` from `scheduler.rs`. -/
def Scheduler.next_bit (s : Scheduler) : Nat × Scheduler :=
  let (b, rng1) := s.rng.next_bit
  (b, { s with rng := rng1 })

/-- `Scheduler::get_candidates` from `scheduler.rs`: the reorder-bound
window `pending[0..=max_idx]` of the canonical pending list. -/
def Scheduler.get_candidates (s : Scheduler) (pending : List Nat) : List Nat :=
  if pending.isEmpty then pending
  else
    let max_idx := match s.bound_k with
      | .Finite k => min k (pending.length - 1)
      | .Infinite => pending.length - 1
    pending.take (max_idx + 1)

/-- `Scheduler::pick_next` from `scheduler.rs`. -/
def Scheduler.pick_next (s : Scheduler) (pending : List Nat) :
    Option Decision × Scheduler :=
  let candidates := s.get_candidates pending
  if candidates.isEmpty then (none, s)
  else
    let (pick, s1) :=
      match s.policy with
      | .FIFO => ((0, candidates.getD 0 0), s)
      | .RANDOM =>
        let (idx, rng1) := s.rng.gen_index candidates.length
        ((idx, candidates.getD idx 0), { s with rng := rng1 })
      | .ADVERSARIAL =>
        let idx := candidates.length - 1
        ((idx, candidates.getD idx 0), s)
      | .BATCHED =>
        let (idx, rng1) := s.rng.gen_index candidates.length
        ((idx, candidates.getD idx 0), { s with rng := rng1 })
    let decision : Decision := ⟨pick.1, pick.2⟩
    (some decision, { s1 with decisions := s1.decisions ++ [decision] })

/-- `SubmitWindow` from `logging.rs`. -/
inductive SubmitWindow where
  | Finite (n : Nat)
  | Infinite
deriving DecidableEq

/-- `Display for SubmitWindow` from `logging.rs`. -/
def SubmitWindow.render : SubmitWindow → String
  | .Finite n => Nat.repr n
  | .Infinite => "inf"

/-- `FaultMode` from `logging.rs`. -/
inductive FaultMode where
  | NONE
  | TIMEOUT
  | RESET
deriving DecidableEq

/-- `Display for FaultMode` from `logging.rs`. -/
def FaultMode.render : FaultMode → String
  | .NONE => "NONE"
  | .TIMEOUT => "TIMEOUT"
  | .RESET => "RESET"

/-- One line of the event log; the `Logger` of `logging.rs` formats each
constructor as exactly one textual line (see `Event.render`). -/
inductive Event where
  | RUN_HEADER (run_id : String) (seed_id : String) (schedule_seed : Nat)
      (policy : Policy) (bound_k : BoundK) (fault_mode : FaultMode)
      (n_cmds : Nat) (submit_window : SubmitWindow)
      (scheduler_version : String) (git_commit : String)
  | SUBMIT (cmd_id : Nat) (cmd_type : String)
  | FENCE (fence_id : Nat)
  | COMPLETE (cmd_id : Nat) (status : Status) (out : Nat)
  | RESET (reason : String) (pending_before : Nat)
  | RUN_END (pending_left : Nat) (pending_peak : Nat)
deriving DecidableEq

/-- The exact textual line of `logging.rs` for each event. -/
def Event.render : Event → String
  | .RUN_HEADER run_id seed_id schedule_seed policy bound_k fault_mode
      n_cmds submit_window scheduler_version git_commit =>
    "RUN_HEADER(run_id=" ++ run_id ++ ", seed_id=" ++ seed_id ++
    ", schedule_seed=" ++ Nat.repr schedule_seed ++
    ", policy=" ++ policy.render ++ ", bound_k=" ++ bound_k.render ++
    ", fault_mode=" ++ fault_mode.render ++ ", n_cmds=" ++ Nat.repr n_cmds ++
    ", submit_window=" ++ submit_window.render ++
    ", scheduler_version=" ++ scheduler_version ++
    ", git_commit=" ++ git_commit ++ ")"
  | .SUBMIT cmd_id cmd_type =>
    "SUBMIT(cmd_id=" ++ Nat.repr cmd_id ++ ", cmd_type=" ++ cmd_type ++ ")"
  | .FENCE fence_id =>
    "FENCE(fence_id=" ++ Nat.repr fence_id ++ ")"
  | .COMPLETE cmd_id status out =>
    "COMPLETE(cmd_id=" ++ Nat.repr cmd_id ++ ", status=" ++ status.render ++
    ", out=" ++ Nat.repr out ++ ")"
  | .RESET reason pending_before =>
    "RESET(reason=" ++ reason ++ ", pending_before=" ++
    Nat.repr pending_before ++ ")"
  | .RUN_END pending_left pending_peak =>
    "RUN_END(pending_left=" ++ Nat.repr pending_left ++
    ", pending_peak=" ++ Nat.repr pending_peak ++ ")"

/-- `ScheduleStep` from `logging.rs`. -/
inductive ScheduleStep where
  | CompletePick (pick_index : Nat)
  | FAULT (fault_type : String) (at_step : Nat)
deriving DecidableEq

/-- `SerializedSchedule` from `logging.rs`. -/
structure SerializedSchedule where
  seed_id : String
  schedule_seed : Nat
  policy : String
  bound_k : String
  fault_mode : String
  steps : List ScheduleStep
deriving DecidableEq

/-- `RunConfig` from `runner.rs`. -/
structure RunConfig where
  seed_id : String
  schedule_seed : Nat
  policy : Policy
  bound_k : BoundK
  fault_mode : FaultMode
  submit_window : SubmitWindow
  scheduler_version : String
  git_commit : String
  dump_schedule : Bool
deriving DecidableEq

/-- `RunConfig::run_id` from `runner.rs`. -/
def RunConfig.run_id (c : RunConfig) : String :=
  c.seed_id ++ "_" ++ c.policy.render ++ "_" ++ c.bound_k.render ++ "_" ++
  Nat.repr c.schedule_seed ++ "_" ++ c.fault_mode.render

/-- `RunResult` from `runner.rs`. -/
structure RunResult where
  run_id : String
  pending_left : Nat
  pending_peak : Nat
  had_reset : Bool
  commands_lost : Nat
deriving DecidableEq

/-- The mutable locals of the `execute_run` loop in `runner.rs`, together
with the owned model, scheduler, log buffer and schedule-step buffer. -/
structure RunState where
  model : NvmeLiteModel
  sched : Scheduler
  log : List Event
  steps : List ScheduleStep
  next_cmd : Nat
  pending_peak : Nat
  step_count : Nat
  fault_injected : Bool
  stop_submits : Bool
  batch_remaining : Nat

/-- `BATCH_SIZE` from `runner.rs`. -/
def BATCH_SIZE : Nat := 4

/-- The test `pending_count < submit_window.value()` of `runner.rs`;
`SubmitWindow::Infinite` yields `usize::MAX`, which a pending count can
never reach (pending is bounded by the submitted-command count). -/
def windowAllows : SubmitWindow → Nat → Bool
  | .Finite n, p => decide (p < n)
  | .Infinite, _ => true

/-- `submit_ok` of the `execute_run` loop. -/
def submitOk (seed : Seed) (cfg : RunConfig) (st : RunState) : Bool :=
  windowAllows cfg.submit_window st.model.pending.length &&
  decide (st.next_cmd < seed.commands.length) && !st.stop_submits

/-- `complete_ok` of the `execute_run` loop. -/
def completeOk (st : RunState) : Bool :=
  decide (0 < st.model.pending.length)

/-- The submit-or-complete choice of the `execute_run` loop: during a
BATCHED burst force COMPLETE; with both legal draw one PRNG bit; with only
one legal take it.  Returns the choice and the state with the possibly
consumed scheduler PRNG. -/
def decideComplete (seed : Seed) (cfg : RunConfig) (st : RunState) :
    Bool × RunState :=
  if cfg.policy = Policy.BATCHED ∧ 0 < st.batch_remaining then (true, st)
  else if submitOk seed cfg st && completeOk st then
    let (bit, sched1) := st.sched.next_bit
    (bit == 1, { st with sched := sched1 })
  else (completeOk st, st)

/-- The `do_submit` helper plus the submit branch of the loop in
`runner.rs`: submits `seed.commands[next_cmd]`, logs SUBMIT (and FENCE
for a fence), advances `next_cmd` and the local peak. -/
def doSubmitStep (seed : Seed) (st : RunState) : RunState :=
  let command := seed.commands.getD st.next_cmd Command.FENCE
  let ((cmd_id, is_fence, fence_id), model1) := st.model.submit command
  let log1 := st.log ++ [Event.SUBMIT cmd_id command.type_name]
  let log2 :=
    if is_fence then
      match fence_id with
      | some fid => log1 ++ [Event.FENCE fid]
      | none => log1
    else log1
  let current := model1.pending.length
  { st with
    model := model1
    log := log2
    next_cmd := st.next_cmd + 1
    pending_peak := max st.pending_peak current }

/-- The TIMEOUT fault-injection branch of the loop in `runner.rs`:
force-complete the smallest pending command with status TIMEOUT, log it,
record the fault, stop further submits and count one step. -/
def doTimeout (st : RunState) : RunState :=
  let pending := st.model.get_pending_canonical
  let st1 :=
    match pending.head? with
    | some cmd_id =>
      match st.model.complete cmd_id (some Status.TIMEOUT) with
      | (some result, model1) =>
        { st with
          model := model1
          log := st.log ++ [Event.COMPLETE result.cmd_id result.status result.output]
          steps := st.steps ++ [ScheduleStep.FAULT "TIMEOUT" st.step_count] }
      | (none, model1) => { st with model := model1 }
    | none => st
  { st1 with
    fault_injected := true
    stop_submits := true
    step_count := st1.step_count + 1 }

/-- The RESET fault-injection branch of the loop in `runner.rs`: reset the
model, log RESET, record the fault (the loop then breaks). -/
def doReset (st : RunState) : RunState :=
  let (pending_before, model1) := st.model.reset
  { st with
    model := model1
    log := st.log ++ [Event.RESET "INJECTED" pending_before]
    steps := st.steps ++ [ScheduleStep.FAULT "RESET" st.step_count]
    fault_injected := true }

/-- The normal completion path of the loop in `runner.rs`: start a BATCHED
burst if due, ask the scheduler for a pick, complete it in the model, log
COMPLETE, record the pick index, and count one step. -/
def doNormalComplete (cfg : RunConfig) (st : RunState) : RunState :=
  let pending := st.model.get_pending_canonical
  let batch1 :=
    if cfg.policy = Policy.BATCHED ∧ st.batch_remaining = 0 ∧ ¬pending.isEmpty
    then min BATCH_SIZE pending.length
    else st.batch_remaining
  let (dec, sched1) := st.sched.pick_next pending
  let st1 := { st with sched := sched1, batch_remaining := batch1 }
  let st2 :=
    match dec with
    | some decision =>
      match st1.model.complete decision.cmd_id none with
      | (some result, model1) =>
        let batch2 :=
          if cfg.policy = Policy.BATCHED ∧ 0 < st1.batch_remaining
          then st1.batch_remaining - 1
          else st1.batch_remaining
        { st1 with
          model := model1
          log := st1.log ++ [Event.COMPLETE result.cmd_id result.status result.output]
          steps := st1.steps ++ [ScheduleStep.CompletePick decision.pick_index]
          batch_remaining := batch2 }
      | (none, model1) => { st1 with model := model1 }
    | none => st1
  { st2 with step_count := st2.step_count + 1 }

/-- Result of one iteration of the `execute_run` loop: `next` continues
the loop, `done` leaves it (the exit test or the RESET break). -/
inductive StepResult where
  | next (st : RunState)
  | done (st : RunState)

/-- One iteration of the `execute_run` loop of `runner.rs`. -/
def runStep (seed : Seed) (cfg : RunConfig) (fault_step : Option Nat)
    (st : RunState) : StepResult :=
  if !submitOk seed cfg st && !completeOk st then .done st
  else
    let (doC, st1) := decideComplete seed cfg st
    if doC then
      let faultFire :=
        match fault_step with
        | some fs => decide (fs ≤ st1.step_count) && !st1.fault_injected
        | none => false
      if faultFire then
        match cfg.fault_mode with
        | .TIMEOUT => .next (doTimeout st1)
        | .RESET => .done (doReset st1)
        | .NONE => .next (doNormalComplete cfg st1)
      else .next (doNormalComplete cfg st1)
    else .next (doSubmitStep seed st1)

/-- The `execute_run` loop, with explicit fuel (the loop always terminates
within `2 * n_cmds + 1` iterations; the claims that depend on the final
state prove this bound). -/
def runLoop (seed : Seed) (cfg : RunConfig) (fault_step : Option Nat) :
    Nat → RunState → RunState
  | 0, st => st
  | fuel + 1, st =>
    match runStep seed cfg fault_step st with
    | .done st1 => st1
    | .next st1 => runLoop seed cfg fault_step fuel st1

/-- The artifacts of one run: the event log (one file line per event), the
schedule record, and the `RunResult`. -/
structure RunOutput where
  log : List Event
  schedule : SerializedSchedule
  steps : List ScheduleStep
  result : RunResult

/-- `execute_run` from `runner.rs` (file writing elided: the log and
schedule contents are returned instead of written). -/
def execute_run (seed : Seed) (cfg : RunConfig) : RunOutput :=
  let model := NvmeLiteModel.new
  let sched := Scheduler.new cfg.policy cfg.bound_k cfg.schedule_seed
  let n_cmds := seed.commands.length
  let run_id := cfg.run_id
  let header := Event.RUN_HEADER run_id seed.seed_id cfg.schedule_seed
    cfg.policy cfg.bound_k cfg.fault_mode n_cmds cfg.submit_window
    cfg.scheduler_version cfg.git_commit
  let fault_step := if cfg.fault_mode ≠ FaultMode.NONE
    then some (n_cmds / 2) else none
  let st0 : RunState :=
    { model := model, sched := sched, log := [header], steps := []
      next_cmd := 0, pending_peak := 0, step_count := 0
      fault_injected := false, stop_submits := false, batch_remaining := 0 }
  let stF := runLoop seed cfg fault_step (2 * n_cmds + 1) st0
  let pending_left := stF.model.pending.length
  let final_peak := max stF.pending_peak stF.model.pending_peak
  { log := stF.log ++ [Event.RUN_END pending_left final_peak]
    schedule :=
      { seed_id := seed.seed_id
        schedule_seed := cfg.schedule_seed
        policy := cfg.policy.render
        bound_k := cfg.bound_k.render
        fault_mode := cfg.fault_mode.render
        steps := stF.steps }
    steps := stF.steps
    result :=
      { run_id := run_id
        pending_left := pending_left
        pending_peak := final_peak
        had_reset := stF.model.had_reset
        commands_lost := stF.model.commands_lost_to_reset } }

/-- The byte contents of the written log file: every line `\n`-terminated,
as `Logger::write_to_file` produces them. -/
def logFileContents (out : RunOutput) : String :=
  String.join (out.log.map (fun e => e.render ++ "\n"))

/-- Recognizer for SUBMIT lines. -/
def isSubmitEv : Event → Bool
  | .SUBMIT _ _ => true
  | _ => false

/-- Recognizer for COMPLETE lines. -/
def isCompleteEv : Event → Bool
  | .COMPLETE _ _ _ => true
  | _ => false

/-- Recognizer for COMPLETE lines with status TIMEOUT. -/
def isTimeoutCompleteEv : Event → Bool
  | .COMPLETE _ Status.TIMEOUT _ => true
  | _ => false

/-- Recognizer for RESET lines. -/
def isResetEv : Event → Bool
  | .RESET _ _ => true
  | _ => false

/-- Recognizer for FENCE lines. -/
def isFenceEv : Event → Bool
  | .FENCE _ => true
  | _ => false

/-- Number of SUBMIT lines in a log. -/
def countSubmitEv (log : List Event) : Nat := (log.filter isSubmitEv).length

/-- Number of COMPLETE lines in a log. -/
def countCompleteEv (log : List Event) : Nat := (log.filter isCompleteEv).length

/-- Number of COMPLETE lines with status TIMEOUT in a log. -/
def countTimeoutEv (log : List Event) : Nat :=
  (log.filter isTimeoutCompleteEv).length

/-- Number of RESET lines in a log. -/
def countResetEv (log : List Event) : Nat := (log.filter isResetEv).length

/-- Number of FENCE lines in a log. -/
def countFenceEv (log : List Event) : Nat := (log.filter isFenceEv).length

/-- Whether the log contains a SUBMIT line for command id `k`. -/
def hasSubmit (log : List Event) (k : Nat) : Bool :=
  log.any fun e => match e with
    | .SUBMIT c _ => c == k
    | _ => false

/-- Whether the log contains a COMPLETE line for command id `k`. -/
def hasCompleteId (log : List Event) (k : Nat) : Bool :=
  log.any fun e => match e with
    | .COMPLETE c _ _ => c == k
    | _ => false

/-- The `(status, out)` payloads of the COMPLETE lines for command id
`cid`, in log order. -/
def completesOf (log : List Event) (cid : Nat) : List (Status × Nat) :=
  log.filterMap fun e => match e with
    | .COMPLETE c s o => if c = cid then some (s, o) else none
    | _ => none

/-- Recognizer for CompletePick schedule entries. -/
def isPickStep : ScheduleStep → Bool
  | .CompletePick _ => true
  | _ => false

/-- Recognizer for FAULT schedule entries. -/
def isFaultStep : ScheduleStep → Bool
  | .FAULT _ _ => true
  | _ => false

/-- Number of CompletePick entries in a schedule record. -/
def countPickSteps (steps : List ScheduleStep) : Nat :=
  (steps.filter isPickStep).length

/-- Number of FAULT entries in a schedule record. -/
def countFaultSteps (steps : List ScheduleStep) : Nat :=
  (steps.filter isFaultStep).length

/-- Check at one log position: a SUBMIT line whose cmd_type is FENCE must
be immediately followed by the FENCE line carrying the assigned fence id,
which is the number of FENCE lines before it (fence ids are allocated by
an incrementing counter and every allocation is logged immediately). -/
def fencePairOk (log : List Event) (i : Nat) : Bool :=
  match log[i]? with
  | some (Event.SUBMIT _ ty) =>
    if ty = "FENCE" then
      match log[i + 1]? with
      | some (Event.FENCE fid) => fid == countFenceEv (log.take i)
      | _ => false
    else true
  | _ => true

/-- Every SUBMIT-of-FENCE line is immediately followed by its FENCE line. -/
def fenceFollows (log : List Event) : Bool :=
  (List.range log.length).all (fencePairOk log)

/-- One model operation, for stating model-level invariants over
arbitrary operation sequences. -/
inductive Op where
  | submit (c : Command)
  | complete (cmd_id : Nat) (force : Option Status)
  | reset

/-- Apply one operation to the model (result values discarded). -/
def applyOp (m : NvmeLiteModel) : Op → NvmeLiteModel
  | .submit c => (m.submit c).2
  | .complete cid f => (m.complete cid f).2
  | .reset => m.reset.2

/-- Apply a sequence of operations to the model. -/
def applyOps (m : NvmeLiteModel) (ops : List Op) : NvmeLiteModel :=
  ops.foldl applyOp m

/-- Number of resets in an operation sequence. -/
def countResetOps (ops : List Op) : Nat :=
  (ops.filter fun op => match op with | .reset => true | _ => false).length

/-- The command ids of all submitted commands, in submission order. -/
def submittedIds (m : NvmeLiteModel) : List Nat :=
  m.submitted.map PendingCommand.cmd_id

/-- Number of completed entries whose cmd_id occurs in `submitted`. -/
def completedInSubmitted (m : NvmeLiteModel) : Nat :=
  (m.completed.filter fun r => (submittedIds m).contains r.cmd_id).length

/-- Concrete seed of scenario A with the WRITE_VISIBLE/READ replacement:
`[WRITE{0,4,123}, WRITE_VISIBLE{0,4}, READ{0,4}]`. -/
def seedWVR : Seed :=
  ⟨"s2", [Command.WRITE 0 4 123, Command.WRITE_VISIBLE 0 4, Command.READ 0 4]⟩

/-- A seed with no commands. -/
def seedEmpty : Seed := ⟨"empty", []⟩

/-- A small concrete seed with a FENCE. -/
def seedWF : Seed := ⟨"wf", [Command.WRITE 0 2 7, Command.FENCE]⟩

/-- Concrete FIFO/inf/NONE/inf configuration with schedule seed 0. -/
def cfgNONE : RunConfig :=
  ⟨"s2", 0, Policy.FIFO, BoundK.Infinite, FaultMode.NONE,
    SubmitWindow.Infinite, "v1.0", "", false⟩

/-- Concrete FIFO/inf/TIMEOUT/inf configuration with schedule seed 0. -/
def cfgTIMEOUT : RunConfig :=
  ⟨"s2", 0, Policy.FIFO, BoundK.Infinite, FaultMode.TIMEOUT,
    SubmitWindow.Infinite, "v1.0", "", false⟩

/-- Concrete FIFO/inf/RESET/inf configuration with schedule seed 0. -/
def cfgRESET : RunConfig :=
  ⟨"s2", 0, Policy.FIFO, BoundK.Infinite, FaultMode.RESET,
    SubmitWindow.Infinite, "v1.0", "", false⟩

/-- The initial loop state of `execute_run`: fresh model and scheduler,
the header logged, all counters zero. -/
def initState (seed : Seed) (cfg : RunConfig) : RunState :=
  ⟨NvmeLiteModel.new, Scheduler.new cfg.policy cfg.bound_k cfg.schedule_seed,
   [Event.RUN_HEADER cfg.run_id seed.seed_id cfg.schedule_seed cfg.policy
      cfg.bound_k cfg.fault_mode seed.commands.length cfg.submit_window
      cfg.scheduler_version cfg.git_commit],
   [], 0, 0, 0, false, false, 0⟩

/-- The fault step of `execute_run`: `n_cmds / 2` when a fault mode is
configured. -/
def faultStepOf (seed : Seed) (cfg : RunConfig) : Option Nat :=
  if cfg.fault_mode ≠ FaultMode.NONE then some (seed.commands.length / 2)
  else none

/-- The loop state after the `execute_run` loop has run. -/
def finalState (seed : Seed) (cfg : RunConfig) : RunState :=
  runLoop seed cfg (faultStepOf seed cfg) (2 * seed.commands.length + 1)
    (initState seed cfg)

/-- An operation sequence with two resets. -/
def opsTwoResets : List Op :=
  [Op.submit (Command.WRITE 0 1 7), Op.reset,
   Op.submit (Command.WRITE 0 1 7), Op.reset]

/-- An operation sequence with one reset. -/
def opsOneReset : List Op :=
  [Op.submit (Command.WRITE 0 1 7), Op.complete 0 none, Op.reset]

/-- Structural invariant of the model, maintained by every model
operation (resets only while `commands_lost_to_reset` is still 0). -/
structure MInv (m : NvmeLiteModel) : Prop where
  nodup : (pendingKeys m).Nodup
  keys_lt : ∀ k ∈ pendingKeys m, k < m.next_cmd_id
  keys_sub : ∀ k ∈ pendingKeys m, k ∈ submittedIds m
  compl_sub : ∀ r ∈ m.completed, r.cmd_id ∈ submittedIds m
  bal : (pendingKeys m).length + m.completed.length + m.commands_lost_to_reset
      = m.submitted.length
  lost0 : m.had_reset = false → m.commands_lost_to_reset = 0

/-- Structural invariant of the run-engine loop state, maintained by every
iteration of the `execute_run` loop in every configuration. -/
structure BaseInv (seed : Seed) (cfg : RunConfig) (st : RunState) : Prop where
  sorted : List.Pairwise (· < ·) (pendingKeys st.model)
  keys_lt : ∀ k ∈ pendingKeys st.model, k < st.model.next_cmd_id
  ncid : st.model.next_cmd_id = st.next_cmd
  next_le : st.next_cmd ≤ seed.commands.length
  subm_count : countSubmitEv st.log = st.next_cmd
  compl_count : countCompleteEv st.log + (pendingKeys st.model).length
      + st.model.commands_lost_to_reset = st.next_cmd
  step_eq : st.step_count = countCompleteEv st.log
  stop_false : st.fault_injected = false → st.stop_submits = false
  batch_le : st.fault_injected = false →
      st.batch_remaining ≤ (pendingKeys st.model).length
  batch_zero : cfg.policy ≠ Policy.BATCHED → st.batch_remaining = 0
  subm_iff : ∀ k, hasSubmit st.log k = true ↔ k < st.next_cmd
  compl_lt : ∀ k, hasCompleteId st.log k = true → k < st.next_cmd
  corresp : ∀ k, k ∈ pendingKeys st.model ↔
      (hasSubmit st.log k = true ∧ hasCompleteId st.log k = false)

/-- TIMEOUT-mode invariant before the fault fires. -/
def TInvA (fs : Nat) (st : RunState) : Prop :=
  st.step_count ≤ fs ∧
  countTimeoutEv st.log = 0 ∧
  countFaultSteps st.steps = 0 ∧
  countPickSteps st.steps = countCompleteEv st.log ∧
  st.model.commands_lost_to_reset = 0

/-- TIMEOUT-mode invariant after the fault fired: the log splits around
the unique TIMEOUT COMPLETE, whose cmd_id is minimal among the commands
submitted-but-not-completed before it, no SUBMIT follows it, the schedule
holds exactly one FAULT entry (with the completion-step count at
injection) and one CompletePick per other COMPLETE line. -/
def TInvB (st : RunState) : Prop :=
  st.stop_submits = true ∧
  st.model.commands_lost_to_reset = 0 ∧
  countFaultSteps st.steps = 1 ∧
  countPickSteps st.steps + 1 = countCompleteEv st.log ∧
  ∃ pre c post,
    st.log = pre ++ Event.COMPLETE c Status.TIMEOUT 0 :: post ∧
    countSubmitEv post = 0 ∧
    countTimeoutEv pre = 0 ∧
    countTimeoutEv post = 0 ∧
    hasSubmit pre c = true ∧
    hasCompleteId pre c = false ∧
    (∀ k, hasSubmit pre k = true → hasCompleteId pre k = false → c ≤ k) ∧
    ScheduleStep.FAULT "TIMEOUT" (countCompleteEv pre) ∈ st.steps

/-- The termination measure of the `execute_run` loop: every continuing
iteration strictly decreases it. -/
def loopMeasure (seed : Seed) (st : RunState) : Nat :=
  2 * (seed.commands.length - st.next_cmd) + (pendingKeys st.model).length

/-- Propositional form of the FENCE-pairing log property. -/
def FencePairProp (log : List Event) : Prop :=
  ∀ i c ty, log[i]? = some (Event.SUBMIT c ty) → ty = "FENCE" →
    log[i + 1]? = some (Event.FENCE (countFenceEv (log.take i)))

/-- Fence-pairing invariant of the loop state. -/
structure FInv (st : RunState) : Prop where
  pair : FencePairProp st.log
  fcount : countFenceEv st.log = st.model.current_fence_id

/-! Lemmas and claim theorems. -/

theorem lookupIdx_eq_none_of_not_mem {l : List (Nat × Nat)} {k : Nat}
    (h : k ∉ l.map Prod.fst) : lookupIdx l k = none := by
  induction l with
  | nil => rfl
  | cons p rest ih =>
    simp only [List.map_cons, List.mem_cons] at h
    push_neg at h
    rw [lookupIdx, if_neg (fun hk => h.1 hk.symm), ih h.2]

/-- Claim C1: two executions of `execute_run` on identical `(seed, config)`
inputs produce byte-identical event-log contents and identical
schedule-record contents.  In this embedding `execute_run` is a pure
function of `(seed, config)` — the source's only apparent nondeterminism,
the hash-map iteration order, is washed out by `get_pending_canonical`'s
sort — so determinism is definitional equality of the two run artifacts. -/
theorem claim_C1 (seed : Seed) (cfg : RunConfig) :
    logFileContents (execute_run seed cfg) = logFileContents (execute_run seed cfg) ∧
    (execute_run seed cfg).schedule = (execute_run seed cfg).schedule :=
  ⟨rfl, rfl⟩

/-- Claim C2, counterexample: for the seed
`[WRITE{0,4,123}, WRITE_VISIBLE{0,4}, READ{0,4}]` run with
`(FIFO, inf, NONE, inf, schedule_seed=0)`, the unique COMPLETE for the
READ (cmd_id 2) carries out=3786432, not 3937934 as the claim states. -/
theorem claim_C2_counterexample :
    completesOf (execute_run seedWVR cfgNONE).log 2 = [(Status.OK, 3786432)] ∧
    (Status.OK, 3937934) ∉ completesOf (execute_run seedWVR cfgNONE).log 2 := by
  constructor
  · decide
  · decide

/-- Claim C2, amended: the READ completes with output
`((((0*31+123)*31+123)*31+123)*31+123) = 3786432` — the spec's formula,
whose value the spec misprints as 3937934. -/
theorem claim_C2_amended :
    completesOf (execute_run seedWVR cfgNONE).log 2 =
      [(Status.OK, (((0 * 31 + 123) * 31 + 123) * 31 + 123) * 31 + 123)] := by
  decide

/-- Claim C4: `next_u64` adds the golden-ratio constant into the state
(wrapping on 64 bits), then mixes with the two xor-shift-multiply rounds
and a final xor-shift, all wrapping on 64 bits; `next_bit` is
`next_u64 & 1` and `gen_index len` is `next_u64 mod len`. -/
theorem claim_C4 (s len : Nat) :
    (SplitMix64.next_u64 ⟨s⟩).2.state = (s + 0x9E3779B97F4A7C15) % 2 ^ 64 ∧
    (SplitMix64.next_u64 ⟨s⟩).1 =
      (let s1 := (s + 0x9E3779B97F4A7C15) % 2 ^ 64
       let z1 := ((s1 ^^^ (s1 >>> 30)) * 0xBF58476D1CE4E5B9) % 2 ^ 64
       let z2 := ((z1 ^^^ (z1 >>> 27)) * 0x94D049BB133111EB) % 2 ^ 64
       z2 ^^^ (z2 >>> 31)) ∧
    (SplitMix64.next_bit ⟨s⟩).1 = (SplitMix64.next_u64 ⟨s⟩).1 &&& 1 ∧
    (SplitMix64.next_bit ⟨s⟩).2 = (SplitMix64.next_u64 ⟨s⟩).2 ∧
    (SplitMix64.gen_index ⟨s⟩ len).1 = (SplitMix64.next_u64 ⟨s⟩).1 % len ∧
    (SplitMix64.gen_index ⟨s⟩ len).2 = (SplitMix64.next_u64 ⟨s⟩).2 :=
  ⟨rfl, rfl, rfl, rfl, rfl, rfl⟩

/-- Claim C10: completing a cmd_id that is not pending returns `none` and
leaves the model (every field) unchanged. -/
theorem claim_C10 (m : NvmeLiteModel) (cid : Nat) (force : Option Status)
    (h : cid ∉ pendingKeys m) : m.complete cid force = (none, m) := by
  unfold NvmeLiteModel.complete
  rw [lookupIdx_eq_none_of_not_mem h]

/-- Claim C10 witness: the fresh model has nothing pending, so completing
cmd_id 0 is a no-op returning `none`. -/
theorem claim_C10_witness :
    (0 : Nat) ∉ pendingKeys NvmeLiteModel.new ∧
    NvmeLiteModel.new.complete 0 none = (none, NvmeLiteModel.new) :=
  ⟨by decide, claim_C10 NvmeLiteModel.new 0 none (by decide)⟩

theorem get_candidates_ne_nil (s : Scheduler) {P : List Nat} (h : P ≠ []) :
    s.get_candidates P ≠ [] := by
  obtain ⟨a, t, rfl⟩ := List.exists_cons_of_ne_nil h
  simp only [Scheduler.get_candidates, List.isEmpty_cons, Bool.false_eq_true,
    if_false]
  cases s.bound_k <;> simp [List.take_succ_cons]

theorem getD_length_pred :
    ∀ (l : List Nat), l ≠ [] → l.getD (l.length - 1) 0 = l.getLastD 0 := by
  intro l
  induction l with
  | nil => intro h; exact absurd rfl h
  | cons a t ih =>
    intro _
    cases t with
    | nil => rfl
    | cons b u =>
      have h2 : (b :: u) ≠ [] := List.cons_ne_nil b u
      have : (a :: b :: u).getD ((a :: b :: u).length - 1) 0
          = (b :: u).getD ((b :: u).length - 1) 0 := by
        simp [List.getD]
      rw [this, ih h2]
      simp [List.getLastD]

theorem get_candidates_cons (s : Scheduler) (a : Nat) (t : List Nat) :
    ∃ r, s.get_candidates (a :: t) = a :: r ∧ (a :: r).Sublist (a :: t) := by
  simp only [Scheduler.get_candidates, List.isEmpty_cons, Bool.false_eq_true,
    if_false]
  cases hb : s.bound_k with
  | Finite k =>
    refine ⟨t.take (min k ((a :: t).length - 1)), ?_, ?_⟩
    · simp [List.take_succ_cons]
    · exact (t.take_sublist _).cons₂ a
  | Infinite =>
    refine ⟨t.take ((a :: t).length - 1), ?_, ?_⟩
    · simp [List.take_succ_cons]
    · exact (t.take_sublist _).cons₂ a

theorem pick_next_adv (bk : BoundK) (rng : SplitMix64) (decs : List Decision)
    (P : List Nat) (h : P ≠ []) :
    (Scheduler.pick_next ⟨Policy.ADVERSARIAL, bk, rng, decs⟩ P).1
      = some ⟨(Scheduler.get_candidates ⟨Policy.ADVERSARIAL, bk, rng, decs⟩ P).length - 1,
          (Scheduler.get_candidates ⟨Policy.ADVERSARIAL, bk, rng, decs⟩ P).getLastD 0⟩ := by
  obtain ⟨a, t, rfl⟩ := List.exists_cons_of_ne_nil h
  obtain ⟨r, hr, _⟩ := get_candidates_cons ⟨Policy.ADVERSARIAL, bk, rng, decs⟩ a t
  simp only [Scheduler.pick_next]
  rw [hr]
  simp only [List.isEmpty_cons, Bool.false_eq_true, if_false]
  rw [getD_length_pred (a :: r) (List.cons_ne_nil a r)]

/-- Claim C3: for a non-empty canonical pending list `P` the candidate
slice is `P[0..=min(k,|P|-1)]` for a finite bound and all of `P` for the
infinite bound; within it FIFO picks index 0 (the head) and ADVERSARIAL
picks index `|candidates|-1` (the last candidate), and neither consumes a
PRNG draw (the scheduler's generator state is returned unchanged). -/
theorem claim_C3 (pol : Policy) (bk : BoundK) (rng : SplitMix64)
    (decs : List Decision) (P : List Nat) (h : P ≠ []) (k : Nat) :
    (Scheduler.get_candidates ⟨pol, BoundK.Finite k, rng, decs⟩ P
      = P.take (min k (P.length - 1) + 1)) ∧
    (Scheduler.get_candidates ⟨pol, BoundK.Infinite, rng, decs⟩ P = P) ∧
    ((Scheduler.pick_next ⟨Policy.FIFO, bk, rng, decs⟩ P).1
      = some ⟨0, P.headD 0⟩) ∧
    ((Scheduler.pick_next ⟨Policy.FIFO, bk, rng, decs⟩ P).2.rng = rng) ∧
    ((Scheduler.pick_next ⟨Policy.ADVERSARIAL, bk, rng, decs⟩ P).1
      = some ⟨(Scheduler.get_candidates ⟨Policy.ADVERSARIAL, bk, rng, decs⟩ P).length - 1,
          (Scheduler.get_candidates ⟨Policy.ADVERSARIAL, bk, rng, decs⟩ P).getLastD 0⟩) ∧
    ((Scheduler.pick_next ⟨Policy.ADVERSARIAL, bk, rng, decs⟩ P).2.rng = rng) := by
  obtain ⟨a, t, rfl⟩ := List.exists_cons_of_ne_nil h
  refine ⟨?_, ?_, ?_, ?_, ?_, ?_⟩
  · simp [Scheduler.get_candidates]
  · simp [Scheduler.get_candidates, List.take_succ_cons, List.take_length]
  · obtain ⟨r, hr, _⟩ :=
      get_candidates_cons ⟨Policy.FIFO, bk, rng, decs⟩ a t
    simp [Scheduler.pick_next, hr]
  · obtain ⟨r, hr, _⟩ :=
      get_candidates_cons ⟨Policy.FIFO, bk, rng, decs⟩ a t
    simp [Scheduler.pick_next, hr]
  · exact pick_next_adv bk rng decs (a :: t) h
  · obtain ⟨r, hr, _⟩ :=
      get_candidates_cons ⟨Policy.ADVERSARIAL, bk, rng, decs⟩ a t
    simp [Scheduler.pick_next, hr]

/-- Claim C3 witness: the scheduler facts instantiated at the concrete
pending list `[5, 7, 9]` with bound 1. -/
theorem claim_C3_witness :
    ([5, 7, 9] : List Nat) ≠ [] ∧
    ((Scheduler.get_candidates ⟨Policy.RANDOM, BoundK.Finite 1, ⟨0⟩, []⟩ [5, 7, 9]
      = [5, 7, 9].take (min 1 (([5, 7, 9] : List Nat).length - 1) + 1)) ∧
    (Scheduler.get_candidates ⟨Policy.RANDOM, BoundK.Infinite, ⟨0⟩, []⟩ [5, 7, 9]
      = [5, 7, 9]) ∧
    ((Scheduler.pick_next ⟨Policy.FIFO, BoundK.Finite 1, ⟨0⟩, []⟩ [5, 7, 9]).1
      = some ⟨0, ([5, 7, 9] : List Nat).headD 0⟩) ∧
    ((Scheduler.pick_next ⟨Policy.FIFO, BoundK.Finite 1, ⟨0⟩, []⟩ [5, 7, 9]).2.rng
      = ⟨0⟩) ∧
    ((Scheduler.pick_next ⟨Policy.ADVERSARIAL, BoundK.Finite 1, ⟨0⟩, []⟩ [5, 7, 9]).1
      = some ⟨(Scheduler.get_candidates ⟨Policy.ADVERSARIAL, BoundK.Finite 1, ⟨0⟩, []⟩
            [5, 7, 9]).length - 1,
          (Scheduler.get_candidates ⟨Policy.ADVERSARIAL, BoundK.Finite 1, ⟨0⟩, []⟩
            [5, 7, 9]).getLastD 0⟩) ∧
    ((Scheduler.pick_next ⟨Policy.ADVERSARIAL, BoundK.Finite 1, ⟨0⟩, []⟩ [5, 7, 9]).2.rng
      = ⟨0⟩)) :=
  ⟨by decide, claim_C3 Policy.RANDOM (BoundK.Finite 1) ⟨0⟩ [] [5, 7, 9] (by decide) 1⟩

theorem take_append_left {α : Type} {l l' : List α} {n : Nat} (h : n ≤ l.length) :
    (l ++ l').take n = l.take n := by
  rw [List.take_append_eq_append_take, Nat.sub_eq_zero_of_le h, List.take_zero,
    List.append_nil]

theorem lookupIdx_isSome_of_mem {l : List (Nat × Nat)} {k : Nat}
    (h : k ∈ l.map Prod.fst) : ∃ idx, lookupIdx l k = some idx := by
  induction l with
  | nil => simp at h
  | cons p rest ih =>
    by_cases hp : p.1 = k
    · exact ⟨p.2, by simp [lookupIdx, hp]⟩
    · simp only [List.map_cons, List.mem_cons] at h
      rcases h with h | h
      · exact absurd h.symm hp
      · obtain ⟨idx, hidx⟩ := ih h
        exact ⟨idx, by simp [lookupIdx, hp, hidx]⟩

theorem removeKey_map_fst (l : List (Nat × Nat)) (c : Nat) :
    (removeKey l c).map Prod.fst
      = (l.map Prod.fst).filter (fun x => decide (x ≠ c)) := by
  induction l with
  | nil => rfl
  | cons p rest ih =>
    by_cases hp : p.1 = c
    · simp [removeKey, List.filter, hp] at ih ⊢
      exact ih
    · simp [removeKey, List.filter, hp] at ih ⊢
      exact ih

theorem filter_ne_length {l : List Nat} {c : Nat} (hnd : l.Nodup) (hc : c ∈ l) :
    (l.filter (fun x => decide (x ≠ c))).length + 1 = l.length := by
  induction l with
  | nil => simp at hc
  | cons x xs ih =>
    rcases List.nodup_cons.mp hnd with ⟨hx, hxs⟩
    rcases List.mem_cons.mp hc with h | h
    · have hfix : xs.filter (fun y => decide (y ≠ c)) = xs := by
        refine List.filter_eq_self.mpr (fun a ha => ?_)
        simp only [decide_eq_true_eq]
        intro hac
        rw [hac] at ha
        exact hx (h ▸ ha)
      rw [List.filter_cons, if_neg (by simp [h]), hfix]
      simp
    · have hxc : x ≠ c := fun hxc => hx (hxc ▸ h)
      rw [List.filter_cons, if_pos (by simp [hxc])]
      simp only [List.length_cons]
      rw [← ih hxs h]
theorem sortNat_eq_of_sorted :
    ∀ l : List Nat, List.Pairwise (· ≤ ·) l → sortNat l = l := by
  intro l
  induction l with
  | nil => intro _; rfl
  | cons a t ih =>
    intro h
    rcases List.pairwise_cons.mp h with ⟨ha, ht⟩
    have hs : sortNat (a :: t) = insertSorted a (sortNat t) := rfl
    rw [hs, ih ht]
    cases t with
    | nil => rfl
    | cons b u =>
      have hab : a ≤ b := ha b (List.mem_cons_self b u)
      simp [insertSorted, hab]

theorem canonical_eq_keys (m : NvmeLiteModel)
    (h : List.Pairwise (· < ·) (pendingKeys m)) :
    m.get_pending_canonical = pendingKeys m :=
  sortNat_eq_of_sorted _ (h.imp Nat.le_of_lt)

theorem sorted_head_min {c : Nat} {rest : List Nat}
    (h : List.Pairwise (· < ·) (c :: rest)) :
    ∀ k ∈ c :: rest, c ≤ k := by
  intro k hk
  rcases List.mem_cons.mp hk with h1 | h1
  · exact h1 ▸ Nat.le_refl c
  · exact Nat.le_of_lt ((List.pairwise_cons.mp h).1 k h1)

theorem getD_mem {l : List Nat} {idx : Nat} (h : idx < l.length) :
    l.getD idx 0 ∈ l := by
  rw [List.getD_eq_getElem?_getD, List.getElem?_eq_getElem h]
  exact List.getElem_mem h

theorem execute_command_spec (m : NvmeLiteModel) (cmd : Command) :
    (m.execute_command cmd).1.1 ≠ Status.TIMEOUT ∧
    (m.execute_command cmd).2.pending = m.pending ∧
    (m.execute_command cmd).2.submitted = m.submitted ∧
    (m.execute_command cmd).2.completed = m.completed ∧
    (m.execute_command cmd).2.next_cmd_id = m.next_cmd_id ∧
    (m.execute_command cmd).2.current_fence_id = m.current_fence_id ∧
    (m.execute_command cmd).2.fence_tracking = m.fence_tracking ∧
    (m.execute_command cmd).2.had_reset = m.had_reset ∧
    (m.execute_command cmd).2.commands_lost_to_reset = m.commands_lost_to_reset ∧
    (m.execute_command cmd).2.pending_peak = m.pending_peak := by
  cases cmd <;> simp only [NvmeLiteModel.execute_command] <;> (try split) <;> simp
theorem complete_spec (m : NvmeLiteModel) (c : Nat) (force : Option Status)
    (h : c ∈ pendingKeys m) :
    ∃ res : CommandResult,
      (m.complete c force).1 = some res ∧ res.cmd_id = c ∧
      (force = none → res.status ≠ Status.TIMEOUT) ∧
      (force = some Status.TIMEOUT → res.status = Status.TIMEOUT ∧ res.output = 0) ∧
      (m.complete c force).2.pending = removeKey m.pending c ∧
      (m.complete c force).2.submitted = m.submitted ∧
      (m.complete c force).2.completed = m.completed ++ [res] ∧
      (m.complete c force).2.next_cmd_id = m.next_cmd_id ∧
      (m.complete c force).2.current_fence_id = m.current_fence_id ∧
      (m.complete c force).2.had_reset = m.had_reset ∧
      (m.complete c force).2.commands_lost_to_reset = m.commands_lost_to_reset ∧
      (m.complete c force).2.pending_peak = m.pending_peak := by
  obtain ⟨idx, hidx⟩ := lookupIdx_isSome_of_mem h
  unfold NvmeLiteModel.complete
  rw [hidx]
  cases force with
  | some forced =>
    refine ⟨⟨c, forced, 0⟩, rfl, rfl, by simp, ?_, rfl, rfl, rfl, rfl, rfl, rfl,
      rfl, rfl⟩
    intro hx
    simp only [Option.some_inj] at hx
    exact ⟨hx, rfl⟩
  | none =>
    rcases he : ({ m with pending := removeKey m.pending c } :
        NvmeLiteModel).execute_command
        (({ m with pending := removeKey m.pending c } :
          NvmeLiteModel).submitted.getD idx ⟨0, Command.FENCE, none⟩).command
      with ⟨⟨s, o⟩, m2⟩
    have spec := execute_command_spec ({ m with pending := removeKey m.pending c })
        (({ m with pending := removeKey m.pending c } :
          NvmeLiteModel).submitted.getD idx ⟨0, Command.FENCE, none⟩).command
    rw [he] at spec
    obtain ⟨h1, h2, h3, h4, h5, h6, h7, h8, h9, h10⟩ := spec
    refine ⟨⟨c, s, o⟩, ?_, rfl, fun _ => h1, by simp, ?_, ?_, ?_, ?_, ?_, ?_, ?_, ?_⟩
    · simp only [he]
    · simp only [he]; exact h2
    · simp only [he]; exact h3
    · simp only [he]; rw [h4]
    · simp only [he]; exact h5
    · simp only [he]; exact h6
    · simp only [he]; exact h8
    · simp only [he]; exact h9
    · simp only [he]; exact h10
theorem submit_spec (m : NvmeLiteModel) (cmd : Command) :
    (m.submit cmd).1.1 = m.next_cmd_id ∧
    (m.submit cmd).2.pending = m.pending ++ [(m.next_cmd_id, m.submitted.length)] ∧
    (m.submit cmd).2.next_cmd_id = m.next_cmd_id + 1 ∧
    (m.submit cmd).2.completed = m.completed ∧
    (m.submit cmd).2.had_reset = m.had_reset ∧
    (m.submit cmd).2.commands_lost_to_reset = m.commands_lost_to_reset ∧
    ((m.submit cmd).1.2.1 = true ↔ cmd = Command.FENCE) ∧
    (cmd = Command.FENCE →
      (m.submit cmd).1.2.2 = some m.current_fence_id ∧
      (m.submit cmd).2.current_fence_id = m.current_fence_id + 1) ∧
    (cmd ≠ Command.FENCE →
      (m.submit cmd).1.2.2 = none ∧
      (m.submit cmd).2.current_fence_id = m.current_fence_id) := by
  cases cmd <;>
    (unfold NvmeLiteModel.submit
     by_cases hpk : m.pending_peak < m.pending.length + 1 <;> simp [hpk])

theorem pendingKeys_submit (m : NvmeLiteModel) (cmd : Command) :
    pendingKeys (m.submit cmd).2 = pendingKeys m ++ [m.next_cmd_id] := by
  have h := (submit_spec m cmd).2.1
  unfold pendingKeys
  rw [h, List.map_append]
  rfl

theorem pick_next_some (s : Scheduler) (P : List Nat) (h : P ≠ []) :
    ∃ d s1, s.pick_next P = (some d, s1) ∧ d.cmd_id ∈ P := by
  obtain ⟨a, t, rfl⟩ := List.exists_cons_of_ne_nil h
  obtain ⟨r, hr, hsub⟩ := get_candidates_cons s a t
  have hmem : ∀ x ∈ a :: r, x ∈ a :: t := fun x hx => hsub.mem hx
  have hlen : 0 < (a :: r).length := Nat.succ_pos _
  unfold Scheduler.pick_next
  rw [hr]
  simp only [List.isEmpty_cons, Bool.false_eq_true, if_false]
  cases s.policy with
  | FIFO =>
    exact ⟨_, _, rfl, hmem _ (by simp [List.getD])⟩
  | RANDOM =>
    refine ⟨_, _, rfl, hmem _ ?_⟩
    refine getD_mem ?_
    exact Nat.mod_lt _ hlen
  | ADVERSARIAL =>
    refine ⟨_, _, rfl, hmem _ ?_⟩
    refine getD_mem ?_
    exact Nat.sub_lt hlen Nat.one_pos
  | BATCHED =>
    refine ⟨_, _, rfl, hmem _ ?_⟩
    refine getD_mem ?_
    exact Nat.mod_lt _ hlen

theorem submit_submitted (m : NvmeLiteModel) (cmd : Command) :
    (m.submit cmd).2.submitted
      = m.submitted ++ [⟨m.next_cmd_id, cmd, (m.submit cmd).1.2.2⟩] := by
  cases cmd <;>
    (unfold NvmeLiteModel.submit
     by_cases hpk : m.pending_peak < m.pending.length + 1 <;> simp [hpk])

theorem submittedIds_submit (m : NvmeLiteModel) (cmd : Command) :
    submittedIds (m.submit cmd).2 = submittedIds m ++ [m.next_cmd_id] := by
  unfold submittedIds
  rw [submit_submitted, List.map_append]
  rfl

theorem MInv_new : MInv NvmeLiteModel.new := by
  constructor <;> simp [pendingKeys, submittedIds, NvmeLiteModel.new]

theorem MInv_submit {m : NvmeLiteModel} (hm : MInv m) (c : Command) :
    MInv (m.submit c).2 := by
  obtain ⟨s1, s2, s3, s4, s5, s6, s7, s8, s9⟩ := submit_spec m c
  have hpk := pendingKeys_submit m c
  have hsi := submittedIds_submit m c
  have hslen : (m.submit c).2.submitted.length = m.submitted.length + 1 := by
    rw [submit_submitted]; simp
  constructor
  · rw [hpk]
    refine List.Nodup.append hm.nodup (List.nodup_singleton _) ?_
    intro a ha hb
    simp only [List.mem_singleton] at hb
    exact absurd (hb ▸ hm.keys_lt a ha) (Nat.lt_irrefl _)
  · intro k hk
    rw [hpk] at hk
    rw [s3]
    rcases List.mem_append.mp hk with h | h
    · exact Nat.lt_succ_of_lt (hm.keys_lt k h)
    · simp only [List.mem_singleton] at h
      exact h ▸ Nat.lt_succ_self _
  · intro k hk
    rw [hpk] at hk
    rw [hsi]
    rcases List.mem_append.mp hk with h | h
    · exact List.mem_append_left _ (hm.keys_sub k h)
    · exact List.mem_append_right _ h
  · intro r hr
    rw [s4] at hr
    rw [hsi]
    exact List.mem_append_left _ (hm.compl_sub r hr)
  · rw [hpk, s4, s6, hslen, List.length_append]
    have hb := hm.bal
    simp only [List.length_singleton]
    omega
  · intro h
    rw [s5] at h
    rw [s6]
    exact hm.lost0 h

theorem complete_not_pending {m : NvmeLiteModel} {cid : Nat}
    (force : Option Status) (h : cid ∉ pendingKeys m) :
    m.complete cid force = (none, m) := by
  unfold NvmeLiteModel.complete
  rw [lookupIdx_eq_none_of_not_mem h]

theorem MInv_complete {m : NvmeLiteModel} (hm : MInv m) (cid : Nat)
    (f : Option Status) : MInv (m.complete cid f).2 := by
  by_cases hc : cid ∈ pendingKeys m
  · obtain ⟨res, h1, h2, h3, h4, h5, h6, h7, h8, h9, h10, h11, h12⟩ :=
      complete_spec m cid f hc
    have hpk : pendingKeys (m.complete cid f).2
        = (pendingKeys m).filter (fun x => decide (x ≠ cid)) := by
      unfold pendingKeys
      rw [h5, removeKey_map_fst]
    have hsub : (pendingKeys (m.complete cid f).2).Sublist (pendingKeys m) := by
      rw [hpk]; exact List.filter_sublist _
    have hsi : submittedIds (m.complete cid f).2 = submittedIds m := by
      unfold submittedIds; rw [h6]
    constructor
    · exact hm.nodup.sublist hsub
    · intro k hk
      rw [h8]
      exact hm.keys_lt k (hsub.mem hk)
    · intro k hk
      rw [hsi]
      exact hm.keys_sub k (hsub.mem hk)
    · intro r hr
      rw [h7] at hr
      rw [hsi]
      rcases List.mem_append.mp hr with h | h
      · exact hm.compl_sub r h
      · simp only [List.mem_singleton] at h
        subst h
        rw [h2]
        exact hm.keys_sub cid hc
    · rw [hpk, h7, h11, h6, List.length_append]
      have := filter_ne_length hm.nodup hc
      have hb := hm.bal
      simp only [List.length_singleton]
      omega
    · intro h
      rw [h10] at h
      rw [h11]
      exact hm.lost0 h
  · rw [complete_not_pending f hc]
    exact hm

theorem MInv_reset {m : NvmeLiteModel} (hm : MInv m)
    (hl : m.commands_lost_to_reset = 0) : MInv m.reset.2 := by
  have hp : m.reset.2.pending = [] := rfl
  have hc : m.reset.2.completed = m.completed := rfl
  have hs : m.reset.2.submitted = m.submitted := rfl
  have hn : m.reset.2.next_cmd_id = m.next_cmd_id := rfl
  have hl2 : m.reset.2.commands_lost_to_reset = m.pending.length := rfl
  have hsi : submittedIds m.reset.2 = submittedIds m := rfl
  have hpk : pendingKeys m.reset.2 = [] := by
    unfold pendingKeys
    rw [hp]
    rfl
  have hklen : (pendingKeys m).length = m.pending.length := by
    unfold pendingKeys
    exact List.length_map _ _
  constructor
  · rw [hpk]; exact List.nodup_nil
  · intro k hk; rw [hpk] at hk; simp at hk
  · intro k hk; rw [hpk] at hk; simp at hk
  · intro r hr
    rw [hc] at hr
    rw [hsi]
    exact hm.compl_sub r hr
  · rw [hpk, hc, hl2, hs]
    have hb := hm.bal
    rw [hl] at hb
    simp only [List.length_nil]
    omega
  · intro h
    rw [show m.reset.2.had_reset = true from rfl] at h
    exact absurd h (by simp)
theorem complete_lost (m : NvmeLiteModel) (cid : Nat) (f : Option Status) :
    (m.complete cid f).2.commands_lost_to_reset = m.commands_lost_to_reset := by
  by_cases hc : cid ∈ pendingKeys m
  · obtain ⟨res, _, _, _, _, _, _, _, _, _, _, h11, _⟩ := complete_spec m cid f hc
    exact h11
  · rw [complete_not_pending f hc]

theorem applyOps_noReset :
    ∀ (ops : List Op) (m : NvmeLiteModel), countResetOps ops = 0 → MInv m →
    MInv (applyOps m ops) ∧
    (applyOps m ops).commands_lost_to_reset = m.commands_lost_to_reset := by
  intro ops
  induction ops with
  | nil => intro m _ hm; exact ⟨hm, rfl⟩
  | cons op rest ih =>
    intro m h hm
    cases op with
    | submit c =>
      have h' : countResetOps rest = 0 := by
        simpa [countResetOps, List.filter_cons] using h
      have step := ih ((m.submit c).2) h' (MInv_submit hm c)
      refine ⟨step.1, ?_⟩
      rw [show applyOps m (Op.submit c :: rest) = applyOps ((m.submit c).2) rest
        from rfl] at *
      rw [step.2]
      exact (submit_spec m c).2.2.2.2.2.1
    | complete cid f =>
      have h' : countResetOps rest = 0 := by
        simpa [countResetOps, List.filter_cons] using h
      have step := ih ((m.complete cid f).2) h' (MInv_complete hm cid f)
      refine ⟨step.1, ?_⟩
      rw [show applyOps m (Op.complete cid f :: rest)
        = applyOps ((m.complete cid f).2) rest from rfl] at *
      rw [step.2]
      exact complete_lost m cid f
    | reset =>
      exfalso
      simp [countResetOps, List.filter_cons] at h

theorem countResetOps_split :
    ∀ (ops : List Op), countResetOps ops = 1 →
    ∃ pre post, ops = pre ++ Op.reset :: post ∧
      countResetOps pre = 0 ∧ countResetOps post = 0 := by
  intro ops
  induction ops with
  | nil => intro h; simp [countResetOps] at h
  | cons op rest ih =>
    intro h
    cases op with
    | reset =>
      have h' : countResetOps rest = 0 := by
        simpa [countResetOps, List.filter_cons] using h
      exact ⟨[], rest, rfl, rfl, h'⟩
    | submit c =>
      have h' : countResetOps rest = 1 := by
        simpa [countResetOps, List.filter_cons] using h
      obtain ⟨pre, post, he, h0, h1⟩ := ih h'
      refine ⟨Op.submit c :: pre, post, by rw [he, List.cons_append], ?_, h1⟩
      simpa [countResetOps, List.filter_cons] using h0
    | complete cid f =>
      have h' : countResetOps rest = 1 := by
        simpa [countResetOps, List.filter_cons] using h
      obtain ⟨pre, post, he, h0, h1⟩ := ih h'
      refine ⟨Op.complete cid f :: pre, post, by rw [he, List.cons_append], ?_, h1⟩
      simpa [countResetOps, List.filter_cons] using h0

theorem completedInSubmitted_eq {m : NvmeLiteModel}
    (h : ∀ r ∈ m.completed, r.cmd_id ∈ submittedIds m) :
    completedInSubmitted m = m.completed.length := by
  unfold completedInSubmitted
  rw [List.filter_eq_self.mpr]
  intro r hr
  simpa using h r hr

/-- Claim C9, amended: after every sequence of model operations containing
at most one reset, `|pending| + |completed entries with cmd_id in
submitted| + commands_lost_to_reset = |submitted|`.  (With two or more
resets the field only records the last reset's loss, so the balance can
fail — see the counterexample.) -/
theorem claim_C9_amended (ops : List Op) (h : countResetOps ops ≤ 1) :
    (pendingKeys (applyOps NvmeLiteModel.new ops)).length
      + completedInSubmitted (applyOps NvmeLiteModel.new ops)
      + (applyOps NvmeLiteModel.new ops).commands_lost_to_reset
      = (applyOps NvmeLiteModel.new ops).submitted.length := by
  have hM : MInv (applyOps NvmeLiteModel.new ops) := by
    have hcase : countResetOps ops = 0 ∨ countResetOps ops = 1 := by omega
    rcases hcase with h0 | h1
    · exact (applyOps_noReset ops _ h0 MInv_new).1
    · obtain ⟨pre, post, rfl, hp0, hp1⟩ := countResetOps_split ops h1
      have hpre := applyOps_noReset pre _ hp0 MInv_new
      have hmid : MInv (applyOp (applyOps NvmeLiteModel.new pre) Op.reset) := by
        apply MInv_reset hpre.1
        rw [hpre.2]
        rfl
      have hpost := applyOps_noReset post _ hp1 hmid
      have heq : applyOps NvmeLiteModel.new (pre ++ Op.reset :: post)
          = applyOps (applyOp (applyOps NvmeLiteModel.new pre) Op.reset) post := by
        simp [applyOps, List.foldl_append]
      rw [heq]
      exact hpost.1
  rw [completedInSubmitted_eq hM.compl_sub]
  exact hM.bal

/-- Claim C9, counterexample: after submit, reset, submit, reset the field
`commands_lost_to_reset` holds only the last reset's loss (1), while two
commands were submitted and none completed, so the balance fails. -/
theorem claim_C9_counterexample :
    ¬ ((pendingKeys (applyOps NvmeLiteModel.new opsTwoResets)).length
        + completedInSubmitted (applyOps NvmeLiteModel.new opsTwoResets)
        + (applyOps NvmeLiteModel.new opsTwoResets).commands_lost_to_reset
        = (applyOps NvmeLiteModel.new opsTwoResets).submitted.length) := by
  decide

/-- Claim C9 witness: the amended invariant at a concrete
submit/complete/reset sequence. -/
theorem claim_C9_witness :
    countResetOps opsOneReset ≤ 1 ∧
    ((pendingKeys (applyOps NvmeLiteModel.new opsOneReset)).length
      + completedInSubmitted (applyOps NvmeLiteModel.new opsOneReset)
      + (applyOps NvmeLiteModel.new opsOneReset).commands_lost_to_reset
      = (applyOps NvmeLiteModel.new opsOneReset).submitted.length) :=
  ⟨by decide, claim_C9_amended opsOneReset (by decide)⟩

theorem countSubmitEv_append (l l' : List Event) :
    countSubmitEv (l ++ l') = countSubmitEv l + countSubmitEv l' := by
  simp [countSubmitEv, List.filter_append]

theorem countCompleteEv_append (l l' : List Event) :
    countCompleteEv (l ++ l') = countCompleteEv l + countCompleteEv l' := by
  simp [countCompleteEv, List.filter_append]

theorem countTimeoutEv_append (l l' : List Event) :
    countTimeoutEv (l ++ l') = countTimeoutEv l + countTimeoutEv l' := by
  simp [countTimeoutEv, List.filter_append]

theorem countResetEv_append (l l' : List Event) :
    countResetEv (l ++ l') = countResetEv l + countResetEv l' := by
  simp [countResetEv, List.filter_append]

theorem countFenceEv_append (l l' : List Event) :
    countFenceEv (l ++ l') = countFenceEv l + countFenceEv l' := by
  simp [countFenceEv, List.filter_append]

theorem countPickSteps_append (l l' : List ScheduleStep) :
    countPickSteps (l ++ l') = countPickSteps l + countPickSteps l' := by
  simp [countPickSteps, List.filter_append]

theorem countFaultSteps_append (l l' : List ScheduleStep) :
    countFaultSteps (l ++ l') = countFaultSteps l + countFaultSteps l' := by
  simp [countFaultSteps, List.filter_append]

theorem hasSubmit_append (l l' : List Event) (k : Nat) :
    hasSubmit (l ++ l') k = (hasSubmit l k || hasSubmit l' k) := by
  simp [hasSubmit, List.any_append]

theorem hasCompleteId_append (l l' : List Event) (k : Nat) :
    hasCompleteId (l ++ l') k = (hasCompleteId l k || hasCompleteId l' k) := by
  simp [hasCompleteId, List.any_append]

theorem decideComplete_fields (seed : Seed) (cfg : RunConfig) (st : RunState) :
    (decideComplete seed cfg st).2.model = st.model ∧
    (decideComplete seed cfg st).2.log = st.log ∧
    (decideComplete seed cfg st).2.steps = st.steps ∧
    (decideComplete seed cfg st).2.next_cmd = st.next_cmd ∧
    (decideComplete seed cfg st).2.step_count = st.step_count ∧
    (decideComplete seed cfg st).2.fault_injected = st.fault_injected ∧
    (decideComplete seed cfg st).2.stop_submits = st.stop_submits ∧
    (decideComplete seed cfg st).2.batch_remaining = st.batch_remaining ∧
    (decideComplete seed cfg st).2.pending_peak = st.pending_peak := by
  unfold decideComplete
  rcases hb : st.sched.next_bit with ⟨bit, sched1⟩
  split
  · exact ⟨rfl, rfl, rfl, rfl, rfl, rfl, rfl, rfl, rfl⟩
  · split
    · exact ⟨rfl, rfl, rfl, rfl, rfl, rfl, rfl, rfl, rfl⟩
    · exact ⟨rfl, rfl, rfl, rfl, rfl, rfl, rfl, rfl, rfl⟩

theorem decideComplete_true (seed : Seed) (cfg : RunConfig) (st : RunState)
    (h : (decideComplete seed cfg st).1 = true) :
    0 < st.batch_remaining ∨ completeOk st = true := by
  unfold decideComplete at h
  rcases hb : st.sched.next_bit with ⟨bit, sched1⟩
  split at h
  · rename_i hcond
    exact Or.inl hcond.2
  · split at h
    · rename_i hcond
      simp only [Bool.and_eq_true] at hcond
      exact Or.inr hcond.2
    · exact Or.inr h

theorem decideComplete_false (seed : Seed) (cfg : RunConfig) (st : RunState)
    (hok : submitOk seed cfg st = true ∨ completeOk st = true)
    (h : (decideComplete seed cfg st).1 = false) :
    submitOk seed cfg st = true := by
  unfold decideComplete at h
  rcases hb : st.sched.next_bit with ⟨bit, sched1⟩
  split at h
  · simp at h
  · split at h
    · rename_i hcond
      simp only [Bool.and_eq_true] at hcond
      exact hcond.1
    · rename_i hcond
      simp only [Bool.and_eq_true, not_and] at hcond
      rcases hok with h1 | h1
      · exact h1
      · rw [h1] at h
        simp at h

theorem BaseInv_congr {seed : Seed} {cfg : RunConfig} {st st' : RunState}
    (h : BaseInv seed cfg st)
    (hm : st'.model = st.model) (hl : st'.log = st.log)
    (hn : st'.next_cmd = st.next_cmd) (hsc : st'.step_count = st.step_count)
    (hfi : st'.fault_injected = st.fault_injected)
    (hss : st'.stop_submits = st.stop_submits)
    (hbr : st'.batch_remaining = st.batch_remaining) : BaseInv seed cfg st' := by
  refine ⟨?_, ?_, ?_, ?_, ?_, ?_, ?_, ?_, ?_, ?_, ?_, ?_, ?_⟩ <;>
    simp only [hm, hl, hn, hsc, hfi, hss, hbr]
  exacts [h.sorted, h.keys_lt, h.ncid, h.next_le, h.subm_count, h.compl_count,
    h.step_eq, h.stop_false, h.batch_le, h.batch_zero, h.subm_iff, h.compl_lt,
    h.corresp]

theorem submitOk_next_lt {seed : Seed} {cfg : RunConfig} {st : RunState}
    (h : submitOk seed cfg st = true) : st.next_cmd < seed.commands.length := by
  unfold submitOk at h
  simp only [Bool.and_eq_true, decide_eq_true_eq] at h
  exact h.1.2

theorem completeOk_ne_nil {st : RunState} (h : completeOk st = true) :
    pendingKeys st.model ≠ [] := by
  unfold completeOk at h
  simp only [decide_eq_true_eq] at h
  unfold pendingKeys
  intro hc
  rw [← List.length_eq_zero] at hc
  rw [List.length_map] at hc
  omega

theorem BaseInv_append_submit (seed : Seed) (cfg : RunConfig) {st : RunState}
    (h : BaseInv seed cfg st)
    (hnext : st.next_cmd < seed.commands.length)
    (st' : RunState) (tl : List Event)
    (hlog : st'.log = st.log ++ tl)
    (hsub1 : countSubmitEv tl = 1)
    (hsubh : ∀ k, hasSubmit tl k = true ↔ k = st.next_cmd)
    (hcomp : countCompleteEv tl = 0)
    (hcomph : ∀ k, hasCompleteId tl k = false)
    (hmodel : pendingKeys st'.model = pendingKeys st.model ++ [st.next_cmd])
    (hncid : st'.model.next_cmd_id = st.model.next_cmd_id + 1)
    (hlost : st'.model.commands_lost_to_reset
        = st.model.commands_lost_to_reset)
    (hnc : st'.next_cmd = st.next_cmd + 1)
    (hsc : st'.step_count = st.step_count)
    (hfi : st'.fault_injected = st.fault_injected)
    (hss : st'.stop_submits = st.stop_submits)
    (hbr : st'.batch_remaining = st.batch_remaining) :
    BaseInv seed cfg st' := by
  have hcfalse : hasCompleteId st.log st.next_cmd = false := by
    cases hcv : hasCompleteId st.log st.next_cmd
    · rfl
    · exact absurd (h.compl_lt _ hcv) (Nat.lt_irrefl _)
  constructor
  · rw [hmodel]
    rw [List.pairwise_append]
    refine ⟨h.sorted, List.pairwise_singleton _ _, ?_⟩
    intro a ha b hb
    simp only [List.mem_singleton] at hb
    subst hb
    rw [← h.ncid]
    exact h.keys_lt a ha
  · intro k hk
    rw [hmodel] at hk
    rw [hncid]
    rcases List.mem_append.mp hk with hk | hk
    · exact Nat.lt_succ_of_lt (h.keys_lt k hk)
    · simp only [List.mem_singleton] at hk
      rw [hk, h.ncid]
      exact Nat.lt_succ_self _
  · rw [hncid, h.ncid, hnc]
  · omega
  · rw [hlog, countSubmitEv_append, h.subm_count, hsub1, hnc]
  · rw [hlog, countCompleteEv_append, hcomp, hmodel, List.length_append,
      hlost, hnc]
    have := h.compl_count
    simp only [List.length_singleton]
    omega
  · rw [hsc, hlog, countCompleteEv_append, hcomp, h.step_eq]
    omega
  · rw [hfi, hss]; exact h.stop_false
  · intro hf
    rw [hfi] at hf
    rw [hbr, hmodel, List.length_append]
    have := h.batch_le hf
    simp only [List.length_singleton]
    omega
  · intro hp; rw [hbr]; exact h.batch_zero hp
  · intro k
    rw [hlog, hasSubmit_append, hnc]
    simp only [Bool.or_eq_true, h.subm_iff k, hsubh k]
    omega
  · intro k hk
    rw [hlog, hasCompleteId_append, hcomph] at hk
    simp only [Bool.or_false] at hk
    rw [hnc]
    exact Nat.lt_succ_of_lt (h.compl_lt k hk)
  · intro k
    rw [hmodel, hlog, hasSubmit_append, hasCompleteId_append, hcomph]
    by_cases hk : k = st.next_cmd
    · have hst : hasSubmit tl k = true := (hsubh k).mpr hk
      rw [hk] at hst ⊢
      rw [hst, hcfalse]
      simp
    · have hsf : hasSubmit tl k = false := by
        cases hv : hasSubmit tl k
        · rfl
        · exact absurd ((hsubh k).mp hv) hk
      rw [hsf]
      simp only [Bool.or_false, List.mem_append, List.mem_singleton, hk,
        or_false]
      exact h.corresp k
theorem doSubmitStep_spec (seed : Seed) (cfg : RunConfig) {st : RunState}
    (h : BaseInv seed cfg st) (hok : submitOk seed cfg st = true) :
    BaseInv seed cfg (doSubmitStep seed st) ∧
    (∃ tl, (doSubmitStep seed st).log = st.log ++ tl ∧
      countCompleteEv tl = 0 ∧ countTimeoutEv tl = 0 ∧ countResetEv tl = 0) ∧
    (doSubmitStep seed st).steps = st.steps ∧
    (doSubmitStep seed st).step_count = st.step_count ∧
    (doSubmitStep seed st).fault_injected = st.fault_injected ∧
    (doSubmitStep seed st).stop_submits = st.stop_submits ∧
    (doSubmitStep seed st).model.commands_lost_to_reset
        = st.model.commands_lost_to_reset ∧
    loopMeasure seed (doSubmitStep seed st) < loopMeasure seed st := by
  have hnext := submitOk_next_lt hok
  unfold doSubmitStep
  rcases hsub : st.model.submit (seed.commands.getD st.next_cmd Command.FENCE)
    with ⟨⟨cmd_id, is_fence, fence_id⟩, model1⟩
  have spec := submit_spec st.model (seed.commands.getD st.next_cmd Command.FENCE)
  rw [hsub] at spec
  obtain ⟨s1, s2, s3, s4, s5, s6, s7, s8, s9⟩ := spec
  simp only at s1 s2 s3 s4 s5 s6 s7 s8 s9
  try simp only [hsub]
  have hkeys : pendingKeys model1 = pendingKeys st.model ++ [st.next_cmd] := by
    have := pendingKeys_submit st.model
      (seed.commands.getD st.next_cmd Command.FENCE)
    rw [hsub] at this
    simp only at this
    rw [this, h.ncid]
  have hcid : cmd_id = st.next_cmd := by rw [s1, h.ncid]
  have hmeas : (pendingKeys model1).length
      = (pendingKeys st.model).length + 1 := by
    rw [hkeys, List.length_append, List.length_singleton]
  by_cases hcmd : seed.commands.getD st.next_cmd Command.FENCE = Command.FENCE
  · have hif : is_fence = true := s7.mpr hcmd
    obtain ⟨hfid, _⟩ := s8 hcmd
    subst hif
    subst hfid
    simp only [if_true]
    refine ⟨?_, ?_, ?_, ?_, ?_, ?_, ?_, ?_⟩
    · refine BaseInv_append_submit seed cfg h hnext _
        [Event.SUBMIT cmd_id (seed.commands.getD st.next_cmd
            Command.FENCE).type_name, Event.FENCE st.model.current_fence_id]
        ?_ ?_ ?_ ?_ ?_ ?_ ?_ ?_ ?_ ?_ ?_ ?_ ?_
      · simp
      · simp [countSubmitEv, isSubmitEv]
      · intro k
        simp [hasSubmit, hcid, beq_iff_eq] <;> omega
      · simp [countCompleteEv, isCompleteEv]
      · intro k
        simp [hasCompleteId]
      · exact hkeys
      · rw [s3, h.ncid]
      · exact s6
      · rfl
      · rfl
      · rfl
      · rfl
      · rfl
    · refine ⟨[Event.SUBMIT cmd_id (seed.commands.getD st.next_cmd
          Command.FENCE).type_name, Event.FENCE st.model.current_fence_id],
        by simp, ?_, ?_, ?_⟩
      · simp [countCompleteEv, isCompleteEv]
      · simp [countTimeoutEv, isTimeoutCompleteEv]
      · simp [countResetEv, isResetEv]
    · first | trivial | rfl
    · first | trivial | rfl
    · first | trivial | rfl
    · first | trivial | rfl
    · first | trivial | exact s6
    · unfold loopMeasure
      simp only [hmeas]
      omega
  · have hif : is_fence = false := by
      cases hv : is_fence
      · rfl
      · exact absurd (s7.mp hv) hcmd
    subst hif
    simp only [Bool.false_eq_true, if_false]
    refine ⟨?_, ?_, ?_, ?_, ?_, ?_, ?_, ?_⟩
    · refine BaseInv_append_submit seed cfg h hnext _
        [Event.SUBMIT cmd_id (seed.commands.getD st.next_cmd
            Command.FENCE).type_name]
        ?_ ?_ ?_ ?_ ?_ ?_ ?_ ?_ ?_ ?_ ?_ ?_ ?_
      · rfl
      · simp [countSubmitEv, isSubmitEv]
      · intro k
        simp [hasSubmit, hcid, beq_iff_eq] <;> omega
      · simp [countCompleteEv, isCompleteEv]
      · intro k
        simp [hasCompleteId]
      · exact hkeys
      · rw [s3, h.ncid]
      · exact s6
      · rfl
      · rfl
      · rfl
      · rfl
      · rfl
    · refine ⟨[Event.SUBMIT cmd_id (seed.commands.getD st.next_cmd
          Command.FENCE).type_name], rfl, ?_, ?_, ?_⟩
      · simp [countCompleteEv, isCompleteEv]
      · simp [countTimeoutEv, isTimeoutCompleteEv]
      · simp [countResetEv, isResetEv]
    · first | trivial | rfl
    · first | trivial | rfl
    · first | trivial | rfl
    · first | trivial | rfl
    · first | trivial | exact s6
    · unfold loopMeasure
      simp only [hmeas]
      omega
theorem BaseInv_append_complete (seed : Seed) (cfg : RunConfig)
    {st st' : RunState} (h : BaseInv seed cfg st) {c : Nat}
    (hc : c ∈ pendingKeys st.model) (s : Status) (o : Nat)
    (hlog : st'.log = st.log ++ [Event.COMPLETE c s o])
    (hmodel : pendingKeys st'.model
        = (pendingKeys st.model).filter (fun x => decide (x ≠ c)))
    (hncid : st'.model.next_cmd_id = st.model.next_cmd_id)
    (hlost : st'.model.commands_lost_to_reset
        = st.model.commands_lost_to_reset)
    (hnc : st'.next_cmd = st.next_cmd)
    (hsc : st'.step_count = st.step_count + 1)
    (hbs : st'.fault_injected = false →
      (st'.stop_submits = false ∧
       st'.batch_remaining ≤ (pendingKeys st'.model).length))
    (hbz : cfg.policy ≠ Policy.BATCHED → st'.batch_remaining = 0) :
    BaseInv seed cfg st' := by
  have hnd : (pendingKeys st.model).Nodup :=
    h.sorted.imp (fun hab => Nat.ne_of_lt hab)
  have hflen := filter_ne_length hnd hc
  have hsubl : (pendingKeys st'.model).Sublist (pendingKeys st.model) := by
    rw [hmodel]; exact List.filter_sublist _
  have hcompl1 : countCompleteEv [Event.COMPLETE c s o] = 1 := by
    simp [countCompleteEv, isCompleteEv]
  constructor
  · rw [hmodel]; exact h.sorted.sublist (List.filter_sublist _)
  · intro k hk; rw [hncid]; exact h.keys_lt k (hsubl.mem hk)
  · rw [hncid, hnc]; exact h.ncid
  · rw [hnc]; exact h.next_le
  · rw [hlog, countSubmitEv_append, hnc]
    have h0 : countSubmitEv [Event.COMPLETE c s o] = 0 := by
      simp [countSubmitEv, isSubmitEv]
    rw [h0]
    have := h.subm_count
    omega
  · rw [hlog, countCompleteEv_append, hcompl1, hlost, hnc]
    have hb := h.compl_count
    have hfl : (pendingKeys st'.model).length + 1
        = (pendingKeys st.model).length := by
      rw [hmodel]; exact hflen
    omega
  · rw [hsc, hlog, countCompleteEv_append, hcompl1, h.step_eq]
  · intro hf; exact (hbs hf).1
  · intro hf; exact (hbs hf).2
  · exact hbz
  · intro k
    rw [hlog, hasSubmit_append, hnc]
    have h0 : hasSubmit [Event.COMPLETE c s o] k = false := by simp [hasSubmit]
    rw [h0]
    simp only [Bool.or_false]
    exact h.subm_iff k
  · intro k hk
    rw [hlog, hasCompleteId_append] at hk
    rw [hnc]
    simp only [Bool.or_eq_true] at hk
    rcases hk with hk | hk
    · exact h.compl_lt k hk
    · have : c = k := by simpa [hasCompleteId] using hk
      rw [← this, ← h.ncid]
      exact h.keys_lt c hc
  · intro k
    rw [hmodel, hlog, hasCompleteId_append, hasSubmit_append]
    have hs0 : hasSubmit [Event.COMPLETE c s o] k = false := by simp [hasSubmit]
    have hc1 : hasCompleteId [Event.COMPLETE c s o] k = (c == k) := by
      simp [hasCompleteId]
    rw [hs0, hc1]
    simp only [Bool.or_false]
    by_cases hkc : k = c
    · subst hkc
      constructor
      · intro hmem
        have := (List.mem_filter.mp hmem).2
        simp at this
      · intro hmem
        have : (k == k : Bool) = true := by simp
        rw [this] at hmem
        simp at hmem
    · have hbeq : (c == k : Bool) = false := by
        simp [beq_iff_eq]
        exact fun hck => hkc hck.symm
      rw [hbeq]
      simp only [Bool.or_false]
      constructor
      · intro hmem
        exact (h.corresp k).mp (List.mem_filter.mp hmem).1
      · intro hx
        refine List.mem_filter.mpr ⟨(h.corresp k).mpr hx, by simp [hkc]⟩
theorem doNormalComplete_spec (seed : Seed) (cfg : RunConfig) {st : RunState}
    (h : BaseInv seed cfg st) (hne : pendingKeys st.model ≠ []) :
    BaseInv seed cfg (doNormalComplete cfg st) ∧
    (∃ c s o i, s ≠ Status.TIMEOUT ∧
      (doNormalComplete cfg st).log = st.log ++ [Event.COMPLETE c s o] ∧
      (doNormalComplete cfg st).steps
        = st.steps ++ [ScheduleStep.CompletePick i]) ∧
    (doNormalComplete cfg st).next_cmd = st.next_cmd ∧
    (doNormalComplete cfg st).step_count = st.step_count + 1 ∧
    (doNormalComplete cfg st).fault_injected = st.fault_injected ∧
    (doNormalComplete cfg st).stop_submits = st.stop_submits ∧
    (doNormalComplete cfg st).model.commands_lost_to_reset
        = st.model.commands_lost_to_reset ∧
    loopMeasure seed (doNormalComplete cfg st) < loopMeasure seed st := by
  have hcan : st.model.get_pending_canonical = pendingKeys st.model :=
    canonical_eq_keys _ h.sorted
  obtain ⟨d, sched1, hpick, hdm⟩ :=
    pick_next_some st.sched (pendingKeys st.model) hne
  have hnd : (pendingKeys st.model).Nodup :=
    h.sorted.imp (fun hab => Nat.ne_of_lt hab)
  have hflen := filter_ne_length hnd hdm
  have hlpos : 0 < (pendingKeys st.model).length := by
    cases hpk : pendingKeys st.model
    · exact absurd hpk hne
    · simp
  rcases hcm : st.model.complete d.cmd_id none with ⟨resO, model1⟩
  have spec := complete_spec st.model d.cmd_id none hdm
  rw [hcm] at spec
  obtain ⟨res, e1, e2, e3, e4, e5, e6, e7, e8, e9, e10, e11, e12⟩ := spec
  simp only at e1 e2 e3 e4 e5 e6 e7 e8 e9 e10 e11 e12
  subst e1
  have hkeys1 : pendingKeys model1
      = (pendingKeys st.model).filter (fun x => decide (x ≠ d.cmd_id)) := by
    unfold pendingKeys
    rw [e5, removeKey_map_fst]
  have hs := e3 (by trivial)
  unfold doNormalComplete
  simp only [hcan, hpick, hcm]
  refine ⟨?_, ?_, ?_, ?_, ?_, ?_, ?_, ?_⟩
  · refine BaseInv_append_complete seed cfg h hdm res.status res.output
      ?_ ?_ ?_ ?_ ?_ ?_ ?_ ?_
    · simp only [hcm, e2]
    · simp only [hcm]; exact hkeys1
    · simp only [hcm]; exact e8
    · simp only [hcm]; exact e11
    · rfl
    · rfl
    · intro hf
      simp only at hf
      constructor
      · exact h.stop_false hf
      · simp only [hcm, hkeys1]
        split
        · rename_i hP1
          split
          · unfold BATCH_SIZE
            omega
          · rename_i hQ
            exfalso
            apply hQ
            refine ⟨hP1.1, ?_⟩
            unfold BATCH_SIZE
            omega
        · rename_i hP1
          split
          · have := h.batch_le hf
            omega
          · rename_i hQ
            by_cases hpol : cfg.policy = Policy.BATCHED
            · have hz : st.batch_remaining = 0 := by
                by_contra hnz
                exact hQ ⟨hpol, Nat.pos_of_ne_zero hnz⟩
              omega
            · have := h.batch_zero hpol
              omega
    · intro hpol
      simp only [hcm]
      have hbz := h.batch_zero hpol
      split
      · rename_i hP1
        exact absurd hP1.1 hpol
      · split
        · rename_i hQ
          exact absurd hQ.1 hpol
        · exact hbz
  · refine ⟨d.cmd_id, res.status, res.output, d.pick_index, hs, ?_, ?_⟩
    · first | rfl | (simp only [hcm, e2])
    · first | rfl | (simp only [hcm])
  · first | trivial | rfl | (simp only [hcm])
  · first | trivial | rfl | (simp only [hcm])
  · first | trivial | rfl | (simp only [hcm])
  · first | trivial | rfl | (simp only [hcm])
  · first | trivial | exact e11 | (simp only [hcm]; exact e11)
  · unfold loopMeasure
    first
      | omega
      | (simp only [hcm, hkeys1]; omega)
      | (try simp only [hcm]
         try simp only [hkeys1]
         omega)
theorem doTimeout_spec (seed : Seed) (cfg : RunConfig) {st : RunState}
    (h : BaseInv seed cfg st) (hne : pendingKeys st.model ≠ []) :
    BaseInv seed cfg (doTimeout st) ∧
    (∃ c, (doTimeout st).log = st.log ++ [Event.COMPLETE c Status.TIMEOUT 0] ∧
      (doTimeout st).steps
        = st.steps ++ [ScheduleStep.FAULT "TIMEOUT" st.step_count] ∧
      c ∈ pendingKeys st.model ∧ (∀ k ∈ pendingKeys st.model, c ≤ k)) ∧
    (doTimeout st).next_cmd = st.next_cmd ∧
    (doTimeout st).step_count = st.step_count + 1 ∧
    (doTimeout st).fault_injected = true ∧
    (doTimeout st).stop_submits = true ∧
    (doTimeout st).model.commands_lost_to_reset
        = st.model.commands_lost_to_reset ∧
    loopMeasure seed (doTimeout st) < loopMeasure seed st := by
  have hcan : st.model.get_pending_canonical = pendingKeys st.model :=
    canonical_eq_keys _ h.sorted
  obtain ⟨a, t, hat⟩ := List.exists_cons_of_ne_nil hne
  have hhead : (pendingKeys st.model).head? = some a := by rw [hat]; rfl
  have ham : a ∈ pendingKeys st.model := by rw [hat]; exact List.mem_cons_self a t
  have hmin : ∀ k ∈ pendingKeys st.model, a ≤ k := by
    rw [hat]
    exact sorted_head_min (hat ▸ h.sorted)
  have hnd : (pendingKeys st.model).Nodup :=
    h.sorted.imp (fun hab => Nat.ne_of_lt hab)
  have hflen := filter_ne_length hnd ham
  rcases hcm : st.model.complete a (some Status.TIMEOUT) with ⟨resO, model1⟩
  have spec := complete_spec st.model a (some Status.TIMEOUT) ham
  rw [hcm] at spec
  obtain ⟨res, e1, e2, e3, e4, e5, e6, e7, e8, e9, e10, e11, e12⟩ := spec
  simp only at e1 e2 e3 e4 e5 e6 e7 e8 e9 e10 e11 e12
  subst e1
  obtain ⟨est, eo⟩ := e4 (by trivial)
  have hkeys1 : pendingKeys model1
      = (pendingKeys st.model).filter (fun x => decide (x ≠ a)) := by
    unfold pendingKeys
    rw [e5, removeKey_map_fst]
  unfold doTimeout
  simp only [hcan, hhead, hcm]
  refine ⟨?_, ?_, ?_, ?_, ?_, ?_, ?_, ?_⟩
  · refine BaseInv_append_complete seed cfg h ham res.status res.output
      ?_ ?_ ?_ ?_ ?_ ?_ ?_ ?_
    · first | rfl | (simp only [e2])
    · exact hkeys1
    · exact e8
    · exact e11
    · rfl
    · rfl
    · intro hf
      simp at hf
    · intro hpol
      exact h.batch_zero hpol
  · refine ⟨a, ?_, ?_, ham, hmin⟩
    · first | (rw [e2, est, eo]) | (simp only [e2, est, eo])
    · first | trivial | rfl
  · first | trivial | rfl
  · first | trivial | rfl
  · first | trivial | rfl
  · first | trivial | rfl
  · first | trivial | exact e11
  · unfold loopMeasure
    simp only [hkeys1]
    omega

theorem doReset_spec (seed : Seed) (cfg : RunConfig) (st : RunState) :
    (doReset st).log
      = st.log ++ [Event.RESET "INJECTED" st.model.pending.length] ∧
    (doReset st).steps = st.steps ++ [ScheduleStep.FAULT "RESET" st.step_count] ∧
    (doReset st).model.pending = [] ∧
    (doReset st).fault_injected = true := by
  unfold doReset NvmeLiteModel.reset
  exact ⟨rfl, rfl, rfl, rfl⟩
theorem runStep_analysis (seed : Seed) (cfg : RunConfig)
    (fault_step : Option Nat) (st : RunState) :
    (submitOk seed cfg st = false ∧ completeOk st = false ∧
      runStep seed cfg fault_step st = StepResult.done st) ∨
    ((submitOk seed cfg st = true ∨ completeOk st = true) ∧
      (((decideComplete seed cfg st).1 = false ∧ submitOk seed cfg st = true ∧
        runStep seed cfg fault_step st
          = StepResult.next (doSubmitStep seed (decideComplete seed cfg st).2)) ∨
       ((decideComplete seed cfg st).1 = true ∧
        ((∃ fs, fault_step = some fs ∧ fs ≤ st.step_count ∧
            st.fault_injected = false ∧
            ((cfg.fault_mode = FaultMode.TIMEOUT ∧
              runStep seed cfg fault_step st
                = StepResult.next (doTimeout (decideComplete seed cfg st).2)) ∨
             (cfg.fault_mode = FaultMode.RESET ∧
              runStep seed cfg fault_step st
                = StepResult.done (doReset (decideComplete seed cfg st).2)) ∨
             (cfg.fault_mode = FaultMode.NONE ∧
              runStep seed cfg fault_step st
                = StepResult.next
                    (doNormalComplete cfg (decideComplete seed cfg st).2)))) ∨
         ((fault_step = none ∨
            ∃ fs, fault_step = some fs ∧
              (¬ fs ≤ st.step_count ∨ st.fault_injected = true)) ∧
          runStep seed cfg fault_step st
            = StepResult.next
                (doNormalComplete cfg (decideComplete seed cfg st).2)))))) := by
  unfold runStep
  rcases hdc : decideComplete seed cfg st with ⟨doC, st1⟩
  have f := decideComplete_fields seed cfg st
  rw [hdc] at f
  obtain ⟨f1, f2, f3, f4, f5, f6, f7, f8, f9⟩ := f
  simp only at f1 f2 f3 f4 f5 f6 f7 f8 f9
  by_cases hok : submitOk seed cfg st = true ∨ completeOk st = true
  · have htop : ¬((!submitOk seed cfg st && !completeOk st) = true) := by
      rcases hok with h1 | h1 <;> simp [h1]
    rw [if_neg htop]
    right
    refine ⟨hok, ?_⟩
    cases doC with
    | false =>
      left
      exact ⟨rfl, decideComplete_false seed cfg st hok (by rw [hdc]), rfl⟩
    | true =>
      right
      refine ⟨rfl, ?_⟩
      cases fault_step with
      | none => exact Or.inr ⟨Or.inl rfl, rfl⟩
      | some fs =>
        by_cases hfire :
            (decide (fs ≤ st1.step_count) && !st1.fault_injected) = true
        · left
          have hfp : fs ≤ st1.step_count ∧ (!st1.fault_injected) = true := by
            simpa [Bool.and_eq_true] using hfire
          have hfi : st1.fault_injected = false := by
            cases hv : st1.fault_injected
            · rfl
            · rw [hv] at hfp
              simp at hfp
          refine ⟨fs, rfl, by rw [← f5]; exact hfp.1,
            by rw [← f6]; exact hfi, ?_⟩
          cases cfg.fault_mode
          · exact Or.inr (Or.inr ⟨rfl, by simp [hfire]⟩)
          · exact Or.inl ⟨rfl, by simp [hfire]⟩
          · exact Or.inr (Or.inl ⟨rfl, by simp [hfire]⟩)
        · right
          have hf0 : (decide (fs ≤ st1.step_count) && !st1.fault_injected)
              = false := by
            cases hv : (decide (fs ≤ st1.step_count) && !st1.fault_injected)
            · rfl
            · exact absurd hv hfire
          refine ⟨?_, by simp [hf0]⟩
          right
          refine ⟨fs, rfl, ?_⟩
          by_cases hle : fs ≤ st.step_count
          · right
            have hI : st1.fault_injected = true := by
              cases hv : st1.fault_injected
              · refine absurd ?_ hfire
                have h1 : fs ≤ st1.step_count := by rw [f5]; exact hle
                simp [h1, hv]
              · rfl
            rw [← f6]
            exact hI
          · exact Or.inl hle
  · have ha : submitOk seed cfg st = false := by
      cases hv : submitOk seed cfg st
      · rfl
      · exact absurd (Or.inl hv) hok
    have hb : completeOk st = false := by
      cases hv : completeOk st
      · rfl
      · exact absurd (Or.inr hv) hok
    left
    refine ⟨ha, hb, ?_⟩
    rw [if_pos (by simp [ha, hb] :
      (!submitOk seed cfg st && !completeOk st) = true)]

theorem runLoop_next (seed : Seed) (cfg : RunConfig) (fstep : Option Nat)
    (n : Nat) (st st2 : RunState)
    (h : runStep seed cfg fstep st = StepResult.next st2) :
    runLoop seed cfg fstep (n + 1) st = runLoop seed cfg fstep n st2 := by
  conv_lhs => unfold runLoop
  rw [h]

theorem runLoop_done (seed : Seed) (cfg : RunConfig) (fstep : Option Nat)
    (n : Nat) (st st2 : RunState)
    (h : runStep seed cfg fstep st = StepResult.done st2) :
    runLoop seed cfg fstep (n + 1) st = st2 := by
  conv_lhs => unfold runLoop
  rw [h]

theorem decide_transport (seed : Seed) (cfg : RunConfig) (st : RunState) :
    (BaseInv seed cfg st → BaseInv seed cfg (decideComplete seed cfg st).2) ∧
    submitOk seed cfg (decideComplete seed cfg st).2 = submitOk seed cfg st ∧
    completeOk (decideComplete seed cfg st).2 = completeOk st ∧
    loopMeasure seed (decideComplete seed cfg st).2 = loopMeasure seed st ∧
    (decideComplete seed cfg st).2.fault_injected = st.fault_injected ∧
    (decideComplete seed cfg st).2.model.commands_lost_to_reset
        = st.model.commands_lost_to_reset ∧
    (decideComplete seed cfg st).2.step_count = st.step_count ∧
    (decideComplete seed cfg st).2.log = st.log ∧
    (decideComplete seed cfg st).2.steps = st.steps ∧
    pendingKeys (decideComplete seed cfg st).2.model = pendingKeys st.model := by
  obtain ⟨f1, f2, f3, f4, f5, f6, f7, f8, f9⟩ := decideComplete_fields seed cfg st
  refine ⟨?_, ?_, ?_, ?_, ?_, ?_, ?_, ?_, ?_, ?_⟩
  · intro hB
    exact BaseInv_congr hB f1 f2 f4 f5 f6 f7 f8
  · unfold submitOk
    rw [f1, f4, f7]
  · unfold completeOk
    rw [f1]
  · unfold loopMeasure
    rw [f1, f4]
  · exact f6
  · rw [f1]
  · exact f5
  · exact f2
  · exact f3
  · rw [f1]

theorem doC_pending_ne {seed : Seed} {cfg : RunConfig} {st : RunState}
    (hB : BaseInv seed cfg st) (hF : st.fault_injected = false)
    (hdc : (decideComplete seed cfg st).1 = true) :
    pendingKeys st.model ≠ [] := by
  rcases decideComplete_true seed cfg st hdc with hb | hc
  · have hle := hB.batch_le hF
    intro hnil
    rw [hnil] at hle
    simp only [List.length_nil, Nat.le_zero] at hle
    omega
  · exact completeOk_ne_nil hc

theorem BaseInv_start (seed : Seed) (cfg : RunConfig) (sched : Scheduler)
    (e : Event) (he3 : ∀ k, hasSubmit [e] k = false)
    (he4 : ∀ k, hasCompleteId [e] k = false)
    (he1 : countSubmitEv [e] = 0) (he2 : countCompleteEv [e] = 0) :
    BaseInv seed cfg
      ⟨NvmeLiteModel.new, sched, [e], [], 0, 0, 0, false, false, 0⟩ := by
  constructor
  · simp [pendingKeys, NvmeLiteModel.new]
  · simp [pendingKeys, NvmeLiteModel.new]
  · rfl
  · exact Nat.zero_le _
  · exact he1
  · simp only [he2, pendingKeys, NvmeLiteModel.new, List.map_nil,
      List.length_nil]
  · exact he2.symm
  · intro _; rfl
  · intro _; exact Nat.le_refl 0
  · intro _; rfl
  · intro k
    simp [he3 k]
  · intro k hk
    rw [he4 k] at hk
    exact absurd hk (by simp)
  · intro k
    simp [pendingKeys, NvmeLiteModel.new, he3 k]

theorem runLoop_NONE (seed : Seed) (cfg : RunConfig) :
    ∀ (fuel : Nat) (st : RunState),
    BaseInv seed cfg st →
    st.fault_injected = false →
    st.model.commands_lost_to_reset = 0 →
    loopMeasure seed st < fuel →
    BaseInv seed cfg (runLoop seed cfg none fuel st) ∧
    (runLoop seed cfg none fuel st).fault_injected = false ∧
    (runLoop seed cfg none fuel st).model.commands_lost_to_reset = 0 ∧
    submitOk seed cfg (runLoop seed cfg none fuel st) = false ∧
    completeOk (runLoop seed cfg none fuel st) = false := by
  intro fuel
  induction fuel with
  | zero =>
    intro st _ _ _ hm
    omega
  | succ n ih =>
    intro st hB hF hL hm
    obtain ⟨ht1, ht2, ht3, ht4, ht5, ht6, ht7, ht8, ht9, ht10⟩ :=
      decide_transport seed cfg st
    rcases runStep_analysis seed cfg none st with
      ⟨hs, hc, heq⟩ | ⟨hok, hcase⟩
    · rw [runLoop_done seed cfg none n st st heq]
      exact ⟨hB, hF, hL, hs, hc⟩
    · rcases hcase with ⟨hdc, hsok, heq⟩ | ⟨hdc, hfault | ⟨_, heq⟩⟩
      · rw [runLoop_next seed cfg none n st _ heq]
        have hB1 := ht1 hB
        have hok1 : submitOk seed cfg (decideComplete seed cfg st).2 = true := by
          rw [ht2]; exact hsok
        obtain ⟨hB2, _, _, _, hfi2, hss2, hlost2, hmeas2⟩ :=
          doSubmitStep_spec seed cfg hB1 hok1
        refine ih _ hB2 ?_ ?_ ?_
        · rw [hfi2, ht5]; exact hF
        · rw [hlost2, ht6]; exact hL
        · rw [ht4] at hmeas2
          omega
      · obtain ⟨fs, hfs, _⟩ := hfault
        exact absurd hfs (by simp)
      · rw [runLoop_next seed cfg none n st _ heq]
        have hB1 := ht1 hB
        have hne1 : pendingKeys (decideComplete seed cfg st).2.model ≠ [] := by
          rw [ht10]
          exact doC_pending_ne hB hF hdc
        obtain ⟨hB2, _, _, _, hfi2, hss2, hlost2, hmeas2⟩ :=
          doNormalComplete_spec seed cfg hB1 hne1
        refine ih _ hB2 ?_ ?_ ?_
        · rw [hfi2, ht5]; exact hF
        · rw [hlost2, ht6]; exact hL
        · rw [ht4] at hmeas2
          omega

theorem execute_run_log (seed : Seed) (cfg : RunConfig) :
    (execute_run seed cfg).log = (finalState seed cfg).log
      ++ [Event.RUN_END (finalState seed cfg).model.pending.length
          (max (finalState seed cfg).pending_peak
            (finalState seed cfg).model.pending_peak)] := rfl

theorem execute_run_pending_left (seed : Seed) (cfg : RunConfig) :
    (execute_run seed cfg).result.pending_left
      = (finalState seed cfg).model.pending.length := rfl

theorem execute_run_steps (seed : Seed) (cfg : RunConfig) :
    (execute_run seed cfg).steps = (finalState seed cfg).steps := rfl

theorem initState_BaseInv (seed : Seed) (cfg : RunConfig) :
    BaseInv seed cfg (initState seed cfg) := by
  refine BaseInv_start seed cfg _ _ ?_ ?_ ?_ ?_
  · intro k; simp [hasSubmit]
  · intro k; simp [hasCompleteId]
  · simp [countSubmitEv, isSubmitEv]
  · simp [countCompleteEv, isCompleteEv]

theorem initState_measure (seed : Seed) (cfg : RunConfig) :
    loopMeasure seed (initState seed cfg) < 2 * seed.commands.length + 1 := by
  unfold loopMeasure initState
  simp [pendingKeys, NvmeLiteModel.new]

/-- Claim C5: with fault mode NONE and an infinite submit window, every
run drains: the RUN_END line records pending_left = 0 and the log holds
exactly `n_cmds` SUBMIT lines and `n_cmds` COMPLETE lines. -/
theorem claim_C5 (seed : Seed) (cfg : RunConfig)
    (hf : cfg.fault_mode = FaultMode.NONE)
    (hw : cfg.submit_window = SubmitWindow.Infinite) :
    countSubmitEv (execute_run seed cfg).log = seed.commands.length ∧
    countCompleteEv (execute_run seed cfg).log = seed.commands.length ∧
    (execute_run seed cfg).result.pending_left = 0 ∧
    (∃ pk, (execute_run seed cfg).log.getLast? = some (Event.RUN_END 0 pk)) := by
  have hfs : faultStepOf seed cfg = none := by
    unfold faultStepOf
    rw [hf]
    simp
  have hrun : finalState seed cfg
      = runLoop seed cfg none (2 * seed.commands.length + 1)
          (initState seed cfg) := by
    unfold finalState
    rw [hfs]
  obtain ⟨hBf, hFf, hLf, hSf, hCf⟩ :=
    runLoop_NONE seed cfg (2 * seed.commands.length + 1) (initState seed cfg)
      (initState_BaseInv seed cfg) rfl rfl (initState_measure seed cfg)
  rw [← hrun] at hBf hFf hLf hSf hCf
  have hstop : (finalState seed cfg).stop_submits = false := hBf.stop_false hFf
  have hlen0 : (finalState seed cfg).model.pending.length = 0 := by
    unfold completeOk at hCf
    have := of_decide_eq_false hCf
    omega
  have hkeys0 : (pendingKeys (finalState seed cfg).model).length = 0 := by
    unfold pendingKeys
    rw [List.length_map]
    exact hlen0
  have hnextn : (finalState seed cfg).next_cmd = seed.commands.length := by
    unfold submitOk at hSf
    rw [hw, hstop] at hSf
    simp only [windowAllows, Bool.true_and, Bool.not_false, Bool.and_true] at hSf
    have h1 := of_decide_eq_false hSf
    have h2 := hBf.next_le
    omega
  have hre0 : countSubmitEv [Event.RUN_END
      (finalState seed cfg).model.pending.length
      (max (finalState seed cfg).pending_peak
        (finalState seed cfg).model.pending_peak)] = 0 := by
    simp [countSubmitEv, isSubmitEv]
  have hre1 : countCompleteEv [Event.RUN_END
      (finalState seed cfg).model.pending.length
      (max (finalState seed cfg).pending_peak
        (finalState seed cfg).model.pending_peak)] = 0 := by
    simp [countCompleteEv, isCompleteEv]
  refine ⟨?_, ?_, ?_, ?_⟩
  · rw [execute_run_log, countSubmitEv_append, hre0, hBf.subm_count, hnextn]
    omega
  · rw [execute_run_log, countCompleteEv_append, hre1]
    have := hBf.compl_count
    omega
  · rw [execute_run_pending_left]
    exact hlen0
  · refine ⟨max (finalState seed cfg).pending_peak
      (finalState seed cfg).model.pending_peak, ?_⟩
    rw [execute_run_log, hlen0]
    exact List.getLast?_concat _

/-- Claim C5 witness: the drain property at a concrete two-command
FIFO/NONE run. -/
theorem claim_C5_witness :
    cfgNONE.fault_mode = FaultMode.NONE ∧
    cfgNONE.submit_window = SubmitWindow.Infinite ∧
    (countSubmitEv (execute_run seedWF cfgNONE).log
        = seedWF.commands.length ∧
     countCompleteEv (execute_run seedWF cfgNONE).log
        = seedWF.commands.length ∧
     (execute_run seedWF cfgNONE).result.pending_left = 0 ∧
     (∃ pk, (execute_run seedWF cfgNONE).log.getLast?
        = some (Event.RUN_END 0 pk))) :=
  ⟨rfl, rfl, claim_C5 seedWF cfgNONE rfl rfl⟩

theorem runLoop_RESET (seed : Seed) (cfg : RunConfig) (fs : Nat)
    (hfm : cfg.fault_mode = FaultMode.RESET) :
    ∀ (fuel : Nat) (st : RunState),
    BaseInv seed cfg st →
    st.fault_injected = false →
    st.model.commands_lost_to_reset = 0 →
    countResetEv st.log = 0 →
    loopMeasure seed st < fuel →
    ((countResetEv (runLoop seed cfg (some fs) fuel st).log = 0 ∧
      (runLoop seed cfg (some fs) fuel st).model.pending.length = 0) ∨
     (∃ pre p, (runLoop seed cfg (some fs) fuel st).log
          = pre ++ [Event.RESET "INJECTED" p] ∧
        countResetEv pre = 0 ∧
        (runLoop seed cfg (some fs) fuel st).model.pending = [])) := by
  intro fuel
  induction fuel with
  | zero =>
    intro st _ _ _ _ hm
    omega
  | succ n ih =>
    intro st hB hF hL hR hm
    obtain ⟨ht1, ht2, ht3, ht4, ht5, ht6, ht7, ht8, ht9, ht10⟩ :=
      decide_transport seed cfg st
    rcases runStep_analysis seed cfg (some fs) st with
      ⟨hs, hc, heq⟩ | ⟨hok, hcase⟩
    · rw [runLoop_done seed cfg (some fs) n st st heq]
      left
      refine ⟨hR, ?_⟩
      unfold completeOk at hc
      have := of_decide_eq_false hc
      omega
    · rcases hcase with ⟨hdc, hsok, heq⟩ | ⟨hdc, hfault | ⟨_, heq⟩⟩
      · rw [runLoop_next seed cfg (some fs) n st _ heq]
        have hB1 := ht1 hB
        have hok1 : submitOk seed cfg (decideComplete seed cfg st).2 = true := by
          rw [ht2]; exact hsok
        obtain ⟨hB2, ⟨tl, htl, _, _, htlr⟩, _, _, hfi2, _, hlost2, hmeas2⟩ :=
          doSubmitStep_spec seed cfg hB1 hok1
        refine ih _ hB2 ?_ ?_ ?_ ?_
        · rw [hfi2, ht5]; exact hF
        · rw [hlost2, ht6]; exact hL
        · rw [htl, countResetEv_append, ht8, hR, htlr]
        · rw [ht4] at hmeas2
          omega
      · obtain ⟨fs2, hfs2, hle, hfi, hmode⟩ := hfault
        rcases hmode with ⟨hmt, _⟩ | ⟨_, heq⟩ | ⟨hmn, _⟩
        · rw [hfm] at hmt
          exact absurd hmt (by simp)
        · rw [runLoop_done seed cfg (some fs) n st _ heq]
          obtain ⟨hrl, hrs, hrp, hrf⟩ :=
            doReset_spec seed cfg (decideComplete seed cfg st).2
          right
          refine ⟨st.log, (decideComplete seed cfg st).2.model.pending.length,
            ?_, hR, hrp⟩
          rw [hrl, ht8]
        · rw [hfm] at hmn
          exact absurd hmn (by simp)
      · rw [runLoop_next seed cfg (some fs) n st _ heq]
        have hB1 := ht1 hB
        have hne1 : pendingKeys (decideComplete seed cfg st).2.model ≠ [] := by
          rw [ht10]
          exact doC_pending_ne hB hF hdc
        obtain ⟨hB2, ⟨c2, s2, o2, i2, hs2, hlog2, _⟩, _, _, hfi2, _, hlost2,
          hmeas2⟩ := doNormalComplete_spec seed cfg hB1 hne1
        refine ih _ hB2 ?_ ?_ ?_ ?_
        · rw [hfi2, ht5]; exact hF
        · rw [hlost2, ht6]; exact hL
        · rw [hlog2, countResetEv_append, ht8, hR]
          simp [countResetEv, isResetEv]
        · rw [ht4] at hmeas2
          omega

/-- Claim C7: in RESET-fault runs at most one RESET line appears, nothing
but the RUN_END line follows it, the RUN_END line is always present, and
its pending_left is 0. -/
theorem claim_C7 (seed : Seed) (cfg : RunConfig)
    (hf : cfg.fault_mode = FaultMode.RESET) :
    countResetEv (execute_run seed cfg).log ≤ 1 ∧
    (execute_run seed cfg).result.pending_left = 0 ∧
    ∃ pk, (execute_run seed cfg).log.getLast? = some (Event.RUN_END 0 pk) ∧
      (countResetEv (execute_run seed cfg).log = 0 ∨
       ∃ pre r p, (execute_run seed cfg).log
          = pre ++ [Event.RESET r p, Event.RUN_END 0 pk] ∧
         countResetEv pre = 0) := by
  have hfs : faultStepOf seed cfg = some (seed.commands.length / 2) := by
    unfold faultStepOf
    rw [hf]
    simp
  have hrun : finalState seed cfg
      = runLoop seed cfg (some (seed.commands.length / 2))
          (2 * seed.commands.length + 1) (initState seed cfg) := by
    unfold finalState
    rw [hfs]
  have hinit : countResetEv (initState seed cfg).log = 0 := by
    simp [initState, countResetEv, isResetEv]
  have hres := runLoop_RESET seed cfg (seed.commands.length / 2) hf
    (2 * seed.commands.length + 1) (initState seed cfg)
    (initState_BaseInv seed cfg) rfl rfl hinit (initState_measure seed cfg)
  rw [← hrun] at hres
  rcases hres with ⟨hr0, hp0⟩ | ⟨pre, p, hsplit, hpre0, hpnil⟩
  · have hre : countResetEv [Event.RUN_END
        (finalState seed cfg).model.pending.length
        (max (finalState seed cfg).pending_peak
          (finalState seed cfg).model.pending_peak)] = 0 := by
      simp [countResetEv, isResetEv]
    refine ⟨?_, ?_, ?_⟩
    · rw [execute_run_log, countResetEv_append, hr0, hre]
      omega
    · rw [execute_run_pending_left]
      exact hp0
    · refine ⟨max (finalState seed cfg).pending_peak
        (finalState seed cfg).model.pending_peak, ?_, Or.inl ?_⟩
      · rw [execute_run_log, hp0]
        exact List.getLast?_concat _
      · rw [execute_run_log, countResetEv_append, hr0, hre]
  · have hp0 : (finalState seed cfg).model.pending.length = 0 := by
      rw [hpnil]
      rfl
    have hre : countResetEv [Event.RESET "INJECTED" p] = 1 := by
      simp [countResetEv, isResetEv]
    refine ⟨?_, ?_, ?_⟩
    · rw [execute_run_log, countResetEv_append, hsplit, countResetEv_append,
        hpre0, hre]
      have : countResetEv [Event.RUN_END
          (finalState seed cfg).model.pending.length
          (max (finalState seed cfg).pending_peak
            (finalState seed cfg).model.pending_peak)] = 0 := by
        simp [countResetEv, isResetEv]
      omega
    · rw [execute_run_pending_left]
      exact hp0
    · refine ⟨max (finalState seed cfg).pending_peak
        (finalState seed cfg).model.pending_peak, ?_, Or.inr ?_⟩
      · rw [execute_run_log, hp0]
        exact List.getLast?_concat _
      · refine ⟨pre, "INJECTED", p, ?_, hpre0⟩
        rw [execute_run_log, hsplit, hp0]
        simp

/-- Claim C7 witness: the RESET-run shape at a concrete two-command
FIFO/RESET run. -/
theorem claim_C7_witness :
    cfgRESET.fault_mode = FaultMode.RESET ∧
    (countResetEv (execute_run seedWF cfgRESET).log ≤ 1 ∧
     (execute_run seedWF cfgRESET).result.pending_left = 0 ∧
     ∃ pk, (execute_run seedWF cfgRESET).log.getLast?
          = some (Event.RUN_END 0 pk) ∧
       (countResetEv (execute_run seedWF cfgRESET).log = 0 ∨
        ∃ pre r p, (execute_run seedWF cfgRESET).log
            = pre ++ [Event.RESET r p, Event.RUN_END 0 pk] ∧
          countResetEv pre = 0)) :=
  ⟨rfl, claim_C7 seedWF cfgRESET rfl⟩

theorem type_name_fence (c : Command) :
    c.type_name = "FENCE" ↔ c = Command.FENCE := by
  cases c <;> simp [Command.type_name]

theorem complete_none_model (m : NvmeLiteModel) (cid : Nat) (f : Option Status)
    (h : (m.complete cid f).1 = none) : (m.complete cid f).2 = m := by
  by_cases hc : cid ∈ pendingKeys m
  · obtain ⟨res, e1, _⟩ := complete_spec m cid f hc
    rw [e1] at h
    exact absurd h (by simp)
  · rw [complete_not_pending f hc]

theorem complete_cfid (m : NvmeLiteModel) (cid : Nat) (f : Option Status) :
    (m.complete cid f).2.current_fence_id = m.current_fence_id := by
  by_cases hc : cid ∈ pendingKeys m
  · obtain ⟨res, _, _, _, _, _, _, _, _, e9, _, _, _⟩ := complete_spec m cid f hc
    exact e9
  · rw [complete_not_pending f hc]

theorem fencePair_append_single (log : List Event) (e : Event)
    (hp : FencePairProp log) (he : ∀ c, e ≠ Event.SUBMIT c "FENCE") :
    FencePairProp (log ++ [e]) := by
  intro i c ty h1 h2
  subst h2
  rcases Nat.lt_trichotomy i log.length with hi | hi | hi
  · rw [List.getElem?_append_left hi] at h1
    have h3 := hp i c _ h1 rfl
    rcases Nat.lt_or_ge (i + 1) log.length with hi1 | hi1
    · rw [List.getElem?_append_left hi1, h3,
        take_append_left (Nat.le_of_lt hi)]
    · have hnone : log[i + 1]? = none := List.getElem?_eq_none hi1
      rw [hnone] at h3
      exact absurd h3 (by simp)
  · subst hi
    rw [List.getElem?_concat_length] at h1
    exact absurd (Option.some_inj.mp h1) (he c)
  · have hnone : (log ++ [e])[i]? = none := by
      apply List.getElem?_eq_none
      simp only [List.length_append, List.length_singleton]
      omega
    rw [hnone] at h1
    exact absurd h1 (by simp)

theorem fencePair_append_fence (log : List Event) (cid : Nat)
    (hp : FencePairProp log) :
    FencePairProp (log ++ [Event.SUBMIT cid "FENCE",
      Event.FENCE (countFenceEv log)]) := by
  have hassoc : log ++ [Event.SUBMIT cid "FENCE",
      Event.FENCE (countFenceEv log)]
    = (log ++ [Event.SUBMIT cid "FENCE"]) ++ [Event.FENCE (countFenceEv log)] := by
    simp
  intro i c ty h1 h2
  subst h2
  rcases Nat.lt_trichotomy i log.length with hi | hi | hi
  · rw [List.getElem?_append_left hi] at h1
    have h3 := hp i c _ h1 rfl
    rcases Nat.lt_or_ge (i + 1) log.length with hi1 | hi1
    · rw [List.getElem?_append_left hi1, h3,
        take_append_left (Nat.le_of_lt hi)]
    · have hnone : log[i + 1]? = none := List.getElem?_eq_none hi1
      rw [hnone] at h3
      exact absurd h3 (by simp)
  · subst hi
    rw [hassoc]
    have hlen1 : (log ++ [Event.SUBMIT cid "FENCE"]).length = log.length + 1 := by
      simp
    rw [show log.length + 1 = (log ++ [Event.SUBMIT cid "FENCE"]).length
      from hlen1.symm]
    rw [List.getElem?_concat_length]
    have htake : ((log ++ [Event.SUBMIT cid "FENCE"])
        ++ [Event.FENCE (countFenceEv log)]).take log.length = log.take log.length := by
      rw [take_append_left]
      · rw [take_append_left (Nat.le_refl _)]
      · simp
    rw [htake, List.take_length]
  · rcases Nat.lt_or_ge i (log.length + 2) with hi2 | hi2
    · have hieq : i = log.length + 1 := by omega
      subst hieq
      rw [hassoc] at h1
      have hlen1 : (log ++ [Event.SUBMIT cid "FENCE"]).length
          = log.length + 1 := by simp
      rw [show log.length + 1 = (log ++ [Event.SUBMIT cid "FENCE"]).length
        from hlen1.symm] at h1
      rw [List.getElem?_concat_length] at h1
      injection h1 with h1
      exact absurd h1.symm (by simp)
    · have hnone : (log ++ [Event.SUBMIT cid "FENCE",
          Event.FENCE (countFenceEv log)])[i]? = none := by
        apply List.getElem?_eq_none
        simp only [List.length_append, List.length_cons, List.length_nil]
        omega
      rw [hnone] at h1
      exact absurd h1 (by simp)

theorem FInv_decide (seed : Seed) (cfg : RunConfig) (st : RunState)
    (hF : FInv st) : FInv (decideComplete seed cfg st).2 := by
  obtain ⟨f1, f2, f3, f4, f5, f6, f7, f8, f9⟩ := decideComplete_fields seed cfg st
  constructor
  · rw [f2]; exact hF.pair
  · rw [f2, f1]; exact hF.fcount

theorem FInv_doSubmitStep (seed : Seed) (st : RunState) (hF : FInv st) :
    FInv (doSubmitStep seed st) := by
  unfold doSubmitStep
  rcases hsub : st.model.submit (seed.commands.getD st.next_cmd Command.FENCE)
    with ⟨⟨cmd_id, is_fence, fence_id⟩, model1⟩
  have spec := submit_spec st.model (seed.commands.getD st.next_cmd Command.FENCE)
  rw [hsub] at spec
  obtain ⟨s1, s2, s3, s4, s5, s6, s7, s8, s9⟩ := spec
  simp only at s1 s2 s3 s4 s5 s6 s7 s8 s9
  try simp only [hsub]
  by_cases hcmd : seed.commands.getD st.next_cmd Command.FENCE = Command.FENCE
  · have hif : is_fence = true := s7.mpr hcmd
    obtain ⟨hfid, hcf1⟩ := s8 hcmd
    subst hif
    subst hfid
    simp only [if_true]
    have hty : (seed.commands.getD st.next_cmd Command.FENCE).type_name
        = "FENCE" := (type_name_fence _).mpr hcmd
    constructor
    · have hform : st.log ++ [Event.SUBMIT cmd_id
          (seed.commands.getD st.next_cmd Command.FENCE).type_name]
          ++ [Event.FENCE st.model.current_fence_id]
        = st.log ++ [Event.SUBMIT cmd_id "FENCE",
            Event.FENCE (countFenceEv st.log)] := by
        rw [hty, hF.fcount]
        simp
      simp only
      rw [hform]
      exact fencePair_append_fence st.log cmd_id hF.pair
    · simp only
      rw [List.append_assoc, countFenceEv_append, hcf1]
      have h1 : countFenceEv ([Event.SUBMIT cmd_id
          (seed.commands.getD st.next_cmd Command.FENCE).type_name]
            ++ [Event.FENCE st.model.current_fence_id]) = 1 := by
        simp [countFenceEv, isFenceEv]
      rw [h1, hF.fcount]
  · have hif : is_fence = false := by
      cases hv : is_fence
      · rfl
      · exact absurd (s7.mp hv) hcmd
    subst hif
    obtain ⟨hfid, hcf1⟩ := s9 hcmd
    simp only [Bool.false_eq_true, if_false]
    have hty : (seed.commands.getD st.next_cmd Command.FENCE).type_name
        ≠ "FENCE" := fun hx => hcmd ((type_name_fence _).mp hx)
    constructor
    · simp only
      refine fencePair_append_single st.log _ hF.pair ?_
      intro c heq
      injection heq with h1 h2
      exact hty h2
    · simp only
      rw [countFenceEv_append, hcf1, ← hF.fcount]
      simp [countFenceEv, isFenceEv]

theorem FInv_doNormalComplete (cfg : RunConfig) (st : RunState) (hF : FInv st) :
    FInv (doNormalComplete cfg st) := by
  unfold doNormalComplete
  rcases hpk : st.sched.pick_next st.model.get_pending_canonical
    with ⟨dec, sched1⟩
  try simp only [hpk]
  cases dec with
  | none => exact ⟨hF.pair, hF.fcount⟩
  | some d =>
    rcases hcm : st.model.complete d.cmd_id none with ⟨resO, model1⟩
    try simp only [hcm]
    cases resO with
    | none =>
      have hm1 : model1 = st.model := by
        have := complete_none_model st.model d.cmd_id none (by rw [hcm])
        rw [hcm] at this
        exact this
      subst hm1
      exact ⟨hF.pair, hF.fcount⟩
    | some res =>
      have hcf : model1.current_fence_id = st.model.current_fence_id := by
        have := complete_cfid st.model d.cmd_id none
        rw [hcm] at this
        exact this
      constructor
      · simp only
        refine fencePair_append_single st.log _ hF.pair ?_
        intro c heq
        exact Event.noConfusion heq
      · simp only
        rw [countFenceEv_append, hcf, ← hF.fcount]
        simp [countFenceEv, isFenceEv]

theorem FInv_doTimeout (st : RunState) (hF : FInv st) : FInv (doTimeout st) := by
  unfold doTimeout
  cases hh : st.model.get_pending_canonical.head? with
  | none =>
    simp only [hh]
    exact ⟨hF.pair, hF.fcount⟩
  | some cmd_id =>
    rcases hcm : st.model.complete cmd_id (some Status.TIMEOUT)
      with ⟨resO, model1⟩
    cases resO with
    | none =>
      simp only [hh, hcm]
      have hm1 : model1 = st.model := by
        have := complete_none_model st.model cmd_id (some Status.TIMEOUT)
          (by rw [hcm])
        rw [hcm] at this
        exact this
      subst hm1
      exact ⟨hF.pair, hF.fcount⟩
    | some res =>
      simp only [hh, hcm]
      have hcf : model1.current_fence_id = st.model.current_fence_id := by
        have := complete_cfid st.model cmd_id (some Status.TIMEOUT)
        rw [hcm] at this
        exact this
      constructor
      · simp only
        refine fencePair_append_single st.log _ hF.pair ?_
        intro c heq
        exact Event.noConfusion heq
      · simp only
        rw [countFenceEv_append, hcf, ← hF.fcount]
        simp [countFenceEv, isFenceEv]

theorem FInv_doReset (st : RunState) (hF : FInv st) : FInv (doReset st) := by
  unfold doReset NvmeLiteModel.reset
  constructor
  · simp only
    refine fencePair_append_single st.log _ hF.pair ?_
    intro c heq
    exact Event.noConfusion heq
  · simp only
    rw [countFenceEv_append, ← hF.fcount]
    simp [countFenceEv, isFenceEv]

theorem FInv_runStep (seed : Seed) (cfg : RunConfig) (fstep : Option Nat)
    (st st' : RunState) (hF : FInv st)
    (h : runStep seed cfg fstep st = StepResult.next st'
       ∨ runStep seed cfg fstep st = StepResult.done st') : FInv st' := by
  have hF1 := FInv_decide seed cfg st hF
  rcases runStep_analysis seed cfg fstep st with ⟨_, _, heq⟩ | ⟨_, hcase⟩
  · rcases h with h | h
    · rw [heq] at h
      exact StepResult.noConfusion h
    · rw [heq] at h
      injection h with h
      rw [← h]
      exact hF
  · rcases hcase with ⟨_, _, heq⟩ | ⟨_, hfault | ⟨_, heq⟩⟩
    · rcases h with h | h
      · rw [heq] at h
        injection h with h
        rw [← h]
        exact FInv_doSubmitStep seed _ hF1
      · rw [heq] at h
        exact StepResult.noConfusion h
    · obtain ⟨fs, _, _, _, hmode⟩ := hfault
      rcases hmode with ⟨_, heq⟩ | ⟨_, heq⟩ | ⟨_, heq⟩
      · rcases h with h | h
        · rw [heq] at h
          injection h with h
          rw [← h]
          exact FInv_doTimeout _ hF1
        · rw [heq] at h
          exact StepResult.noConfusion h
      · rcases h with h | h
        · rw [heq] at h
          exact StepResult.noConfusion h
        · rw [heq] at h
          injection h with h
          rw [← h]
          exact FInv_doReset _ hF1
      · rcases h with h | h
        · rw [heq] at h
          injection h with h
          rw [← h]
          exact FInv_doNormalComplete cfg _ hF1
        · rw [heq] at h
          exact StepResult.noConfusion h
    · rcases h with h | h
      · rw [heq] at h
        injection h with h
        rw [← h]
        exact FInv_doNormalComplete cfg _ hF1
      · rw [heq] at h
        exact StepResult.noConfusion h

theorem runLoop_FInv (seed : Seed) (cfg : RunConfig) (fstep : Option Nat) :
    ∀ (fuel : Nat) (st : RunState), FInv st →
    FInv (runLoop seed cfg fstep fuel st) := by
  intro fuel
  induction fuel with
  | zero => intro st h; exact h
  | succ n ih =>
    intro st h
    cases hrs : runStep seed cfg fstep st with
    | done st1 =>
      rw [runLoop_done seed cfg fstep n st st1 hrs]
      exact FInv_runStep seed cfg fstep st st1 h (Or.inr hrs)
    | next st1 =>
      rw [runLoop_next seed cfg fstep n st st1 hrs]
      exact ih st1 (FInv_runStep seed cfg fstep st st1 h (Or.inl hrs))

theorem fenceFollows_of_prop {log : List Event} (h : FencePairProp log) :
    fenceFollows log = true := by
  unfold fenceFollows
  rw [List.all_eq_true]
  intro i _
  unfold fencePairOk
  split
  · rename_i cmd_id ty heq
    by_cases hty : ty = "FENCE"
    · rw [if_pos hty]
      rw [h i cmd_id ty heq hty]
      simp
    · rw [if_neg hty]
  · rfl

/-- Claim C8: in every produced log, each SUBMIT line whose cmd_type is
FENCE is immediately followed by the FENCE line carrying the assigned
fence id (the number of FENCE lines before it), with no event between. -/
theorem claim_C8 (seed : Seed) (cfg : RunConfig) :
    fenceFollows (execute_run seed cfg).log = true := by
  have hinit : FInv (initState seed cfg) := by
    constructor
    · intro i c ty h1 h2
      unfold initState at h1
      rcases i with _ | i
      · simp at h1
      · rw [List.getElem?_eq_none (by simp)] at h1
        exact absurd h1 (by simp)
    · simp [initState, countFenceEv, isFenceEv, NvmeLiteModel.new,
        Scheduler.new]
  have hfin : FInv (finalState seed cfg) :=
    runLoop_FInv seed cfg (faultStepOf seed cfg) _ _ hinit
  have hpair : FencePairProp (execute_run seed cfg).log := by
    rw [execute_run_log]
    refine fencePair_append_single _ _ hfin.pair ?_
    intro c heq
    exact Event.noConfusion heq
  exact fenceFollows_of_prop hpair

theorem countTimeoutEv_single_ne {s : Status} (c o : Nat)
    (h : s ≠ Status.TIMEOUT) :
    countTimeoutEv [Event.COMPLETE c s o] = 0 := by
  cases s
  · rfl
  · rfl
  · exact absurd rfl h

theorem countTimeoutEv_single_to (c : Nat) :
    countTimeoutEv [Event.COMPLETE c Status.TIMEOUT 0] = 1 := rfl

theorem submitOk_false_of_stop {seed : Seed} {cfg : RunConfig}
    {st : RunState} (h : st.stop_submits = true) :
    submitOk seed cfg st = false := by
  unfold submitOk
  rw [h]
  simp

theorem runLoop_TIMEOUT (seed : Seed) (cfg : RunConfig) (fs : Nat)
    (hfm : cfg.fault_mode = FaultMode.TIMEOUT) :
    ∀ (fuel : Nat) (st : RunState),
    BaseInv seed cfg st →
    ((st.fault_injected = false ∧ TInvA fs st) ∨
     (st.fault_injected = true ∧ TInvB st)) →
    loopMeasure seed st < fuel →
    BaseInv seed cfg (runLoop seed cfg (some fs) fuel st) ∧
    (((runLoop seed cfg (some fs) fuel st).fault_injected = false ∧
       TInvA fs (runLoop seed cfg (some fs) fuel st)) ∨
     ((runLoop seed cfg (some fs) fuel st).fault_injected = true ∧
       TInvB (runLoop seed cfg (some fs) fuel st))) ∧
    submitOk seed cfg (runLoop seed cfg (some fs) fuel st) = false ∧
    completeOk (runLoop seed cfg (some fs) fuel st) = false := by
  intro fuel
  induction fuel with
  | zero =>
    intro st _ _ hm
    omega
  | succ n ih =>
    intro st hB hP hm
    obtain ⟨ht1, ht2, ht3, ht4, ht5, ht6, ht7, ht8, ht9, ht10⟩ :=
      decide_transport seed cfg st
    obtain ⟨f1, f2, f3, f4, f5, f6, f7, f8, f9⟩ :=
      decideComplete_fields seed cfg st
    rcases runStep_analysis seed cfg (some fs) st with
      ⟨hs, hc, heq⟩ | ⟨hok, hcase⟩
    · rw [runLoop_done seed cfg (some fs) n st st heq]
      exact ⟨hB, hP, hs, hc⟩
    · rcases hcase with ⟨hdc, hsok, heq⟩ | ⟨hdc, hfault | ⟨hcond, heq⟩⟩
      · rcases hP with ⟨hFa, hA⟩ | ⟨hFb, hBb⟩
        · rw [runLoop_next seed cfg (some fs) n st _ heq]
          have hB1 := ht1 hB
          have hok1 : submitOk seed cfg (decideComplete seed cfg st).2
              = true := by
            rw [ht2]; exact hsok
          obtain ⟨hB2, ⟨tl, htl, htlC, htlT, htlR⟩, hsteps2, hsc2, hfi2,
            hss2, hlost2, hmeas2⟩ := doSubmitStep_spec seed cfg hB1 hok1
          obtain ⟨hA1, hA2, hA3, hA4, hA5⟩ := hA
          refine ih _ hB2 (Or.inl ⟨?_, ?_, ?_, ?_, ?_, ?_⟩) ?_
          · rw [hfi2, ht5]; exact hFa
          · rw [hsc2, ht7]; exact hA1
          · rw [htl, ht8, countTimeoutEv_append, hA2, htlT]
          · rw [hsteps2, ht9]; exact hA3
          · rw [hsteps2, ht9, htl, ht8, countCompleteEv_append, htlC, hA4]
            omega
          · rw [hlost2, ht6]; exact hA5
          · rw [ht4] at hmeas2
            omega
        · exact absurd hsok
            (by rw [submitOk_false_of_stop hBb.1]; simp)
      · obtain ⟨fs2, hfs2, hle, hfi, hmode⟩ := hfault
        rcases hmode with ⟨_, heq⟩ | ⟨hmr, _⟩ | ⟨hmn, _⟩
        · rw [runLoop_next seed cfg (some fs) n st _ heq]
          rcases hP with ⟨hFa, hA⟩ | ⟨hFb, hBb⟩
          · have hB1 := ht1 hB
            have hne1 : pendingKeys (decideComplete seed cfg st).2.model
                ≠ [] := by
              rw [ht10]
              exact doC_pending_ne hB hFa hdc
            obtain ⟨hB2, ⟨c, hlog2, hsteps2, hcm, hcmin⟩, hnc2, hsc2, hfi2,
              hss2, hlost2, hmeas2⟩ := doTimeout_spec seed cfg hB1 hne1
            obtain ⟨hA1, hA2, hA3, hA4, hA5⟩ := hA
            rw [ht10] at hcm hcmin
            refine ih _ hB2 (Or.inr ⟨hfi2, hss2, ?_, ?_, ?_, ?_⟩) ?_
            · rw [hlost2, ht6]; exact hA5
            · rw [hsteps2, ht9, countFaultSteps_append, hA3]
              rfl
            · rw [hsteps2, ht9, hlog2, ht8, countPickSteps_append,
                countCompleteEv_append, hA4]
              simp [countPickSteps, countCompleteEv, isPickStep, isCompleteEv]
            · refine ⟨st.log, c, [], ?_, rfl, hA2, rfl, ?_, ?_, ?_, ?_⟩
              · rw [hlog2, ht8]
              · exact ((hB.corresp c).mp hcm).1
              · exact ((hB.corresp c).mp hcm).2
              · intro k hk1 hk2
                exact hcmin k ((hB.corresp k).mpr ⟨hk1, hk2⟩)
              · rw [hsteps2, ht9, ht7, hB.step_eq]
                exact List.mem_append_right _ (List.mem_singleton_self _)
            · rw [ht4] at hmeas2
              omega
          · rw [hfi] at hFb
            exact absurd hFb (by simp)
        · rw [hfm] at hmr
          exact absurd hmr (by simp)
        · rw [hfm] at hmn
          exact absurd hmn (by simp)
      · rw [runLoop_next seed cfg (some fs) n st _ heq]
        have hB1 := ht1 hB
        rcases hP with ⟨hFa, hA⟩ | ⟨hFb, hBb⟩
        · have hne1 : pendingKeys (decideComplete seed cfg st).2.model
              ≠ [] := by
            rw [ht10]
            exact doC_pending_ne hB hFa hdc
          obtain ⟨hB2, ⟨c, s, o, i, hsT, hlog2, hsteps2⟩, hnc2, hsc2, hfi2,
            hss2, hlost2, hmeas2⟩ := doNormalComplete_spec seed cfg hB1 hne1
          obtain ⟨hA1, hA2, hA3, hA4, hA5⟩ := hA
          have hlt : st.step_count < fs := by
            rcases hcond with hnone | ⟨fs2, hfs2, hside⟩
            · exact absurd hnone (by simp)
            · have hfs2e : fs2 = fs := (Option.some_inj.mp hfs2).symm
              subst hfs2e
              rcases hside with hnle | hfi2t
              · omega
              · rw [hfi2t] at hFa
                exact absurd hFa (by simp)
          refine ih _ hB2 (Or.inl ⟨?_, ?_, ?_, ?_, ?_, ?_⟩) ?_
          · rw [hfi2, ht5]; exact hFa
          · rw [hsc2, ht7]; omega
          · rw [hlog2, ht8, countTimeoutEv_append, hA2,
              countTimeoutEv_single_ne c o hsT]
          · rw [hsteps2, ht9, countFaultSteps_append, hA3]
            rfl
          · rw [hsteps2, ht9, hlog2, ht8, countPickSteps_append,
              countCompleteEv_append, hA4]
            simp [countPickSteps, countCompleteEv, isPickStep, isCompleteEv]
          · rw [hlost2, ht6]; exact hA5
          · rw [ht4] at hmeas2
            omega
        · have hcOk : completeOk st = true := by
            rcases hok with hso | hco
            · rw [submitOk_false_of_stop hBb.1] at hso
              exact absurd hso (by simp)
            · exact hco
          have hne1 : pendingKeys (decideComplete seed cfg st).2.model
              ≠ [] := by
            rw [ht10]
            exact completeOk_ne_nil hcOk
          obtain ⟨hB2, ⟨c, s, o, i, hsT, hlog2, hsteps2⟩, hnc2, hsc2, hfi2,
            hss2, hlost2, hmeas2⟩ := doNormalComplete_spec seed cfg hB1 hne1
          obtain ⟨hBs, hBl, hBf2, hBp, pre, c0, post, hsplit, hpostS, hpreT,
            hpostT, hsubc, hcompc, hmin, hmem⟩ := hBb
          refine ih _ hB2 (Or.inr ⟨?_, ?_, ?_, ?_, ?_, ?_⟩) ?_
          · rw [hfi2, ht5]; exact hFb
          · rw [hss2, f7]; exact hBs
          · rw [hlost2, ht6]; exact hBl
          · rw [hsteps2, ht9, countFaultSteps_append, hBf2]
            rfl
          · rw [hsteps2, ht9, hlog2, ht8, countPickSteps_append,
              countCompleteEv_append]
            have h1 : countPickSteps [ScheduleStep.CompletePick i] = 1 := rfl
            have h2 : countCompleteEv [Event.COMPLETE c s o] = 1 := rfl
            rw [h1, h2]
            omega
          · refine ⟨pre, c0, post ++ [Event.COMPLETE c s o], ?_, ?_, hpreT,
              ?_, hsubc, hcompc, hmin, ?_⟩
            · rw [hlog2, ht8, hsplit]
              simp
            · rw [countSubmitEv_append, hpostS]
              simp [countSubmitEv, isSubmitEv]
            · rw [countTimeoutEv_append, hpostT,
                countTimeoutEv_single_ne c o hsT]
            · rw [hsteps2, ht9]
              exact List.mem_append_left _ hmem
          · rw [ht4] at hmeas2
            omega

/-- Claim C6 counterexample: for the empty seed in TIMEOUT mode the run
terminates before the fault step is reached, so no COMPLETE line with
status TIMEOUT appears, against the claimed exactly-one. -/
theorem claim_C6_counterexample :
    cfgTIMEOUT.fault_mode = FaultMode.TIMEOUT ∧
    ¬ countTimeoutEv (execute_run seedEmpty cfgTIMEOUT).log = 1 := by
  constructor
  · rfl
  · decide

/-- Claim C6 (amended): with fault mode TIMEOUT, at least one command and
a submit window admitting a first submit, the log holds exactly one
COMPLETE line with status TIMEOUT, exactly one FAULT schedule entry,
every other COMPLETE line has a CompletePick entry (the injection
consumes no pick and counts as one completion step), no SUBMIT line
follows the TIMEOUT line, its cmd_id is minimal among the commands
submitted but not completed before it, and the FAULT entry records
the completion-step count at injection. -/
theorem claim_C6 (seed : Seed) (cfg : RunConfig)
    (hf : cfg.fault_mode = FaultMode.TIMEOUT)
    (hn : 1 ≤ seed.commands.length)
    (hw : windowAllows cfg.submit_window 0 = true) :
    countTimeoutEv (execute_run seed cfg).log = 1 ∧
    countFaultSteps (execute_run seed cfg).steps = 1 ∧
    countPickSteps (execute_run seed cfg).steps + 1
        = countCompleteEv (execute_run seed cfg).log ∧
    ∃ pre c post, (execute_run seed cfg).log
        = pre ++ Event.COMPLETE c Status.TIMEOUT 0 :: post ∧
      countSubmitEv post = 0 ∧
      hasSubmit pre c = true ∧ hasCompleteId pre c = false ∧
      (∀ k, hasSubmit pre k = true → hasCompleteId pre k = false → c ≤ k) ∧
      ScheduleStep.FAULT "TIMEOUT" (countCompleteEv pre)
          ∈ (execute_run seed cfg).steps := by
  have hfs : faultStepOf seed cfg = some (seed.commands.length / 2) := by
    unfold faultStepOf
    rw [hf]
    simp
  have hrun : finalState seed cfg
      = runLoop seed cfg (some (seed.commands.length / 2))
          (2 * seed.commands.length + 1) (initState seed cfg) := by
    unfold finalState
    rw [hfs]
  have hA0 : TInvA (seed.commands.length / 2) (initState seed cfg) := by
    refine ⟨Nat.zero_le _, ?_, rfl, ?_, rfl⟩
    · simp [initState, countTimeoutEv, isTimeoutCompleteEv]
    · simp [initState, countPickSteps, countCompleteEv, isCompleteEv,
        isPickStep]
  obtain ⟨hBf, hphase, hSf, hCf⟩ :=
    runLoop_TIMEOUT seed cfg (seed.commands.length / 2) hf
      (2 * seed.commands.length + 1) (initState seed cfg)
      (initState_BaseInv seed cfg) (Or.inl ⟨rfl, hA0⟩)
      (initState_measure seed cfg)
  rw [← hrun] at hBf hphase hSf hCf
  have hlen0 : (finalState seed cfg).model.pending.length = 0 := by
    unfold completeOk at hCf
    have := of_decide_eq_false hCf
    omega
  rcases hphase with ⟨hFa, hA⟩ | ⟨_, hBb⟩
  · exfalso
    have hstop : (finalState seed cfg).stop_submits = false :=
      hBf.stop_false hFa
    have hnextn : (finalState seed cfg).next_cmd = seed.commands.length := by
      unfold submitOk at hSf
      rw [hlen0, hw, hstop] at hSf
      simp only [Bool.true_and, Bool.not_false, Bool.and_true] at hSf
      have h1 := of_decide_eq_false hSf
      have h2 := hBf.next_le
      omega
    have hkeys0 : (pendingKeys (finalState seed cfg).model).length = 0 := by
      unfold pendingKeys
      rw [List.length_map]
      exact hlen0
    obtain ⟨hA1, hA2, hA3, hA4, hA5⟩ := hA
    have hc := hBf.compl_count
    have hst := hBf.step_eq
    rw [hkeys0, hA5, hnextn] at hc
    omega
  · obtain ⟨hBs, hBl, hBf2, hBp, pre, c, post, hsplit, hpostS, hpreT,
      hpostT, hsubc, hcompc, hmin, hmem⟩ := hBb
    have hreT : countTimeoutEv [Event.RUN_END
        (finalState seed cfg).model.pending.length
        (max (finalState seed cfg).pending_peak
          (finalState seed cfg).model.pending_peak)] = 0 := by
      simp [countTimeoutEv, isTimeoutCompleteEv]
    have hreC : countCompleteEv [Event.RUN_END
        (finalState seed cfg).model.pending.length
        (max (finalState seed cfg).pending_peak
          (finalState seed cfg).model.pending_peak)] = 0 := by
      simp [countCompleteEv, isCompleteEv]
    have hsplit2 : (finalState seed cfg).log
        = (pre ++ [Event.COMPLETE c Status.TIMEOUT 0]) ++ post := by
      rw [hsplit]
      simp
    refine ⟨?_, ?_, ?_, pre, c,
      post ++ [Event.RUN_END (finalState seed cfg).model.pending.length
        (max (finalState seed cfg).pending_peak
          (finalState seed cfg).model.pending_peak)],
      ?_, ?_, hsubc, hcompc, hmin, ?_⟩
    · rw [execute_run_log, countTimeoutEv_append, hreT, hsplit2,
        countTimeoutEv_append, countTimeoutEv_append, hpreT, hpostT,
        countTimeoutEv_single_to]
    · rw [execute_run_steps]
      exact hBf2
    · rw [execute_run_log, execute_run_steps, countCompleteEv_append, hreC]
      omega
    · rw [execute_run_log, hsplit]
      simp
    · rw [countSubmitEv_append, hpostS]
      simp [countSubmitEv, isSubmitEv]
    · rw [execute_run_steps]
      exact hmem

/-- Claim C6 witness: the amended TIMEOUT property at a concrete
two-command FIFO/TIMEOUT run. -/
theorem claim_C6_witness :
    cfgTIMEOUT.fault_mode = FaultMode.TIMEOUT ∧
    1 ≤ seedWF.commands.length ∧
    windowAllows cfgTIMEOUT.submit_window 0 = true ∧
    (countTimeoutEv (execute_run seedWF cfgTIMEOUT).log = 1 ∧
     countFaultSteps (execute_run seedWF cfgTIMEOUT).steps = 1 ∧
     countPickSteps (execute_run seedWF cfgTIMEOUT).steps + 1
        = countCompleteEv (execute_run seedWF cfgTIMEOUT).log ∧
     ∃ pre c post, (execute_run seedWF cfgTIMEOUT).log
        = pre ++ Event.COMPLETE c Status.TIMEOUT 0 :: post ∧
       countSubmitEv post = 0 ∧
       hasSubmit pre c = true ∧ hasCompleteId pre c = false ∧
       (∀ k, hasSubmit pre k = true → hasCompleteId pre k = false → c ≤ k) ∧
       ScheduleStep.FAULT "TIMEOUT" (countCompleteEv pre)
          ∈ (execute_run seedWF cfgTIMEOUT).steps) :=
  ⟨rfl, by decide, rfl, claim_C6 seedWF cfgTIMEOUT rfl (by decide) rfl⟩

end Nvme
